import Mathlib

/-!
# laneful-go: the email dispatch client and the webhook signature verifier

A shallow embedding of `laneful.go` and `webhooks.go`.

* Part I holds the definitions: the webhook verifier with the library routines it calls
  (SHA-256, HMAC, hex encoding, constant-time comparison), the JSON encoder and decoder
  of encoding/json as far as the types of the repository use them, the data model with
  its struct tags, and the client with `SendEmails` and `SendEmail`.
* Part II holds the theorems.

Go strings that hold text are `String`, so they are valid UTF-8; the strings of the
webhook verifier, which are compared byte by byte, are byte sequences. A float64 is
modelled when it holds an integer. Where the embedding does not follow the library (a
float64 that is not such an integer, a JSON array stored into a slice that is not nil) it
answers with the mark `GoError.outsideEmbedding` instead of a guess.
-/

namespace Laneful

/-! ## Part I: definitions -/

/-! ### The webhook signature verifier of webhooks.go -/

/-- A Go byte. -/
abbrev Byte := Fin 256

/-- A Go byte slice; a Go string converted with []byte(s) is its byte sequence. -/
abbrev Bytes := List Byte

namespace Sha256

/-- Addition of two uint32 values: modulo 2^32. -/
def add32 (a b : Nat) : Nat := (a + b) % 4294967296

/-- The uint32 value x rotated right by n bits, as bits.RotateLeft32(x, -n). -/
def rotr32 (x n : Nat) : Nat := ((x >>> n) ||| (x <<< (32 - n))) % 4294967296

/-- The bitwise complement of a uint32 value. -/
def not32 (x : Nat) : Nat := 4294967295 - x % 4294967296

/-- The initial chaining state of SHA-256. -/
def initState : List Nat :=
  [0x6a09e667, 0xbb67ae85, 0x3c6ef372, 0xa54ff53a,
   0x510e527f, 0x9b05688c, 0x1f83d9ab, 0x5be0cd19]

/-- The sixty-four round constants of SHA-256. -/
def roundK : List Nat :=
  [0x428a2f98, 0x71374491, 0xb5c0fbcf, 0xe9b5dba5, 0x3956c25b, 0x59f111f1, 0x923f82a4, 0xab1c5ed5,
   0xd807aa98, 0x12835b01, 0x243185be, 0x550c7dc3, 0x72be5d74, 0x80deb1fe, 0x9bdc06a7, 0xc19bf174,
   0xe49b69c1, 0xefbe4786, 0x0fc19dc6, 0x240ca1cc, 0x2de92c6f, 0x4a7484aa, 0x5cb0a9dc, 0x76f988da,
   0x983e5152, 0xa831c66d, 0xb00327c8, 0xbf597fc7, 0xc6e00bf3, 0xd5a79147, 0x06ca6351, 0x14292967,
   0x27b70a85, 0x2e1b2138, 0x4d2c6dfc, 0x53380d13, 0x650a7354, 0x766a0abb, 0x81c2c92e, 0x92722c85,
   0xa2bfe8a1, 0xa81a664b, 0xc24b8b70, 0xc76c51a3, 0xd192e819, 0xd6990624, 0xf40e3585, 0x106aa070,
   0x19a4c116, 0x1e376c08, 0x2748774c, 0x34b0bcb5, 0x391c0cb3, 0x4ed8aa4a, 0x5b9cca4f, 0x682e6ff3,
   0x748f82ee, 0x78a5636f, 0x84c87814, 0x8cc70208, 0x90befffa, 0xa4506ceb, 0xbef9a3f7, 0xc67178f2]

/-- Big-endian 32-bit words of a byte sequence (a trailing partial word is dropped). -/
def wordsOf : Bytes → List Nat
  | b0 :: b1 :: b2 :: b3 :: rest =>
      (b0.val * 16777216 + b1.val * 65536 + b2.val * 256 + b3.val) :: wordsOf rest
  | _ => []

/-- The message schedule: `win` holds the last sixteen words, oldest first. -/
def schedule : Nat → List Nat → List Nat
  | 0, _ => []
  | n + 1, win =>
      let v1 := win.getD 14 0
      let t1 := rotr32 v1 17 ^^^ rotr32 v1 19 ^^^ (v1 >>> 10)
      let v2 := win.getD 1 0
      let t2 := rotr32 v2 7 ^^^ rotr32 v2 18 ^^^ (v2 >>> 3)
      let w := add32 (add32 (add32 t1 (win.getD 9 0)) t2) (win.getD 0 0)
      w :: schedule n (win.drop 1 ++ [w])

/-- The sixty-four rounds over the working variables a..h. -/
def rounds : List (Nat × Nat) → List Nat → List Nat
  | (k, w) :: rest, [a, b, c, d, e, f, g, h] =>
      let t1 := add32 (add32 (add32 (add32 h (rotr32 e 6 ^^^ rotr32 e 11 ^^^ rotr32 e 25))
                  ((e &&& f) ^^^ (not32 e &&& g))) k) w
      let t2 := add32 (rotr32 a 2 ^^^ rotr32 a 13 ^^^ rotr32 a 22)
                  ((a &&& b) ^^^ (a &&& c) ^^^ (b &&& c))
      rounds rest [add32 t1 t2, a, b, c, add32 d t1, e, f, g]
  | _, st => st

/-- One 64-byte block folded into the chaining state. -/
def block (st : List Nat) (chunk : Bytes) : List Nat :=
  let w16 := wordsOf chunk
  let w := w16 ++ schedule 48 w16
  List.zipWith add32 st (rounds (roundK.zip w) st)

/-- The blocks of a padded message, sixty-four bytes each. -/
def blocks : Nat → List Nat → Bytes → List Nat
  | 0, st, _ => st
  | n + 1, st, p => blocks n (block st (p.take 64)) (p.drop 64)

/-- The big-endian bytes of `x`, `n` of them. -/
def beBytes : Nat → Nat → Bytes
  | 0, _ => []
  | n + 1, x => beBytes n (x / 256) ++ [Fin.ofNat (x % 256)]

/-- Padding: 0x80, zeros up to 56 mod 64, then the bit length as 8 big-endian bytes. -/
def pad (msg : Bytes) : Bytes :=
  let zeros := (119 - msg.length % 64) % 64
  msg ++ [(0x80 : Byte)] ++ List.replicate zeros (0 : Byte) ++ beBytes 8 (msg.length * 8 % 18446744073709551616)

/-- The SHA-256 digest: thirty-two bytes. -/
def sum256 (msg : Bytes) : Bytes :=
  let p := pad msg
  ((blocks (p.length / 64) initState p).map (beBytes 4)).flatten

end Sha256

/-- HMAC-SHA256 as crypto/hmac computes it: hmac.New(sha256.New, key), Write(msg), Sum(nil). -/
def hmacSha256 (key msg : Bytes) : Bytes :=
  let k0 := if key.length > 64 then Sha256.sum256 key else key
  let k := k0 ++ List.replicate (64 - k0.length) (0 : Byte)
  let ipad := k.map (fun b => (Fin.ofNat (b.val ^^^ 0x36) : Byte))
  let opad := k.map (fun b => (Fin.ofNat (b.val ^^^ 0x5c) : Byte))
  Sha256.sum256 (opad ++ Sha256.sum256 (ipad ++ msg))

/-- The table of encoding/hex: "0123456789abcdef". -/
def hextable : Bytes := [48, 49, 50, 51, 52, 53, 54, 55, 56, 57, 97, 98, 99, 100, 101, 102]

/-- hex.EncodeToString: two table characters per byte, high nibble first. -/
def hexEncodeToString : Bytes → Bytes
  | [] => []
  | v :: rest => hextable.getD (v.val >>> 4) 0 :: hextable.getD (v.val &&& 0x0f) 0 :: hexEncodeToString rest


/-- Byte exclusive-or, as the uint8 operator. -/
def bxor (a b : Byte) : Byte := ⟨(a.val ^^^ b.val) % 256, Nat.mod_lt _ (by decide)⟩

/-- Byte inclusive-or, as the uint8 operator. -/
def bor (a b : Byte) : Byte := ⟨(a.val ||| b.val) % 256, Nat.mod_lt _ (by decide)⟩

/-- subtle.ConstantTimeByteEq: int((uint32(x^y) - 1) >> 31). -/
def constantTimeByteEq (x y : Byte) : Nat :=
  (((bxor x y).val + 4294967296 - 1) % 4294967296) >>> 31

/-- The loop of subtle.ConstantTimeCompare: v |= x[i] ^ y[i] for every index. -/
def xorFold : Byte → Bytes → Bytes → Byte
  | v, x :: xs, y :: ys => xorFold (bor v (bxor x y)) xs ys
  | v, _, _ => v

/-- subtle.ConstantTimeCompare: 0 on a length mismatch, else 1 exactly when no byte differs. -/
def constantTimeCompare (x y : Bytes) : Nat :=
  if x.length ≠ y.length then 0
  else constantTimeByteEq (xorFold 0 x y) 0

/-- hmac.Equal. -/
def hmacEqual (mac1 mac2 : Bytes) : Bool := constantTimeCompare mac1 mac2 == 1

/-- VerifyWebhookSignature verifies the signature of a webhook payload. -/
def VerifyWebhookSignature (secret payload signature : Bytes) : Bool :=
  let expected := hexEncodeToString (hmacSha256 secret payload)
  hmacEqual signature expected

/-- The lowercase hexadecimal digit of a value below sixteen. -/
def lowerHexDigit (n : Nat) : Byte :=
  if n < 10 then Fin.ofNat (48 + n) else Fin.ofNat (97 + (n - 10))

/-- The lowercase, separator-free hex encoding: two digits per byte. -/
def lowerHex (bs : Bytes) : Bytes :=
  bs.flatMap (fun b => [lowerHexDigit (b.val / 16), lowerHexDigit (b.val % 16)])

/-- ASCII upper-casing of one byte, as bytes.ToUpper on ASCII text. -/
def upperByte (b : Byte) : Byte := if 97 ≤ b.val ∧ b.val ≤ 122 then Fin.ofNat (b.val - 32) else b



/-! ### Errors and JSON documents -/

/-- An error value. The text of a library error names the failure; the library's exact
wording is not modelled. -/
inductive GoError where
  /-- An error made by a library (encoding/json, net/http, net/url, the transport). -/
  | lib (msg : String)
  /-- The result of fmt.Errorf(pfx + "%w", err): the message is pfx followed by the
  message of err, and Unwrap gives err. -/
  | wrapf (pfx : String) (err : GoError)
  /-- The result of fmt.Errorf with only %s verbs: a plain message that wraps nothing. -/
  | msgf (msg : String)
  /-- Not a Go error: the input lies outside what this embedding models (a float64 that
  is not an integer of magnitude at most 2^53, a JSON array stored into a slice that is
  not nil), or a function of the embedding was given too little fuel. -/
  | outsideEmbedding
deriving DecidableEq, Repr

/-- The Error method. -/
def GoError.Error : GoError → String
  | .lib msg => msg
  | .wrapf pfx err => pfx ++ err.Error
  | .msgf msg => msg
  | .outsideEmbedding => "outside the embedding"

/-- The Unwrap method of errors.Unwrap. -/
def GoError.Unwrap : GoError → Option GoError
  | .wrapf _ err => some err
  | _ => none

/-- A JSON document as encoding/json writes and reads it. A number keeps its literal
text, as the decoder does until the target type is known. -/
inductive JSON where
  | null
  | bool (b : Bool)
  | num (lit : String)
  | str (s : String)
  | arr (xs : List JSON)
  | obj (kvs : List (String × JSON))
deriving Repr

/-! ### Writing JSON text (the compact output of json.Marshal, HTML escaping on) -/

/-- The digit table of encoding/json: "0123456789abcdef". -/
def hexDigit (n : Nat) : Char := "0123456789abcdef".data.getD n '0'

/-- One character of a string as the encoder writes it. -/
def escapeChar (c : Char) : List Char :=
  if c = '\\' ∨ c = '"' then ['\\', c]
  else if c = '\x08' then ['\\', 'b']
  else if c = '\x0c' then ['\\', 'f']
  else if c = '\n' then ['\\', 'n']
  else if c = '\r' then ['\\', 'r']
  else if c = '\t' then ['\\', 't']
  else if c.toNat < 0x20 ∨ c = '<' ∨ c = '>' ∨ c = '&' then
    ['\\', 'u', '0', '0', hexDigit (c.toNat / 16), hexDigit (c.toNat % 16)]
  else if c.toNat = 0x2028 then ['\\', 'u', '2', '0', '2', '8']
  else if c.toNat = 0x2029 then ['\\', 'u', '2', '0', '2', '9']
  else [c]

/-- A quoted JSON string. -/
def quote (s : String) : List Char := '"' :: (s.data.flatMap escapeChar ++ ['"'])

mutual
/-- The text of a document. -/
def render : JSON → List Char
  | .null => ['n', 'u', 'l', 'l']
  | .bool true => ['t', 'r', 'u', 'e']
  | .bool false => ['f', 'a', 'l', 's', 'e']
  | .num lit => lit.data
  | .str s => quote s
  | .arr xs => '[' :: (renderElems xs ++ [']'])
  | .obj kvs => '{' :: (renderMembers kvs ++ ['}'])
/-- Array elements, comma separated. -/
def renderElems : List JSON → List Char
  | [] => []
  | [x] => render x
  | x :: y :: rest => render x ++ ',' :: renderElems (y :: rest)
/-- Object members, comma separated. -/
def renderMembers : List (String × JSON) → List Char
  | [] => []
  | [(k, v)] => quote k ++ ':' :: render v
  | (k, v) :: m :: rest => quote k ++ ':' :: (render v ++ ',' :: renderMembers (m :: rest))
end

/-! ### Reading JSON text (the scanner and literal decoding of encoding/json) -/

/-- The scanner's isSpace. -/
def isSpace (c : Char) : Bool := c = ' ' ∨ c = '\t' ∨ c = '\r' ∨ c = '\n'

/-- Leading white space dropped. -/
def skipSpace : List Char → List Char
  | [] => []
  | c :: cs => if isSpace c then skipSpace cs else c :: cs

/-- Whether a character is a decimal digit. -/
def isDigit (c : Char) : Bool := '0'.toNat ≤ c.toNat ∧ c.toNat ≤ '9'.toNat

/-- The value of a hexadecimal digit, either case. -/
def hexVal (c : Char) : Option Nat :=
  if isDigit c then some (c.toNat - '0'.toNat)
  else if 'a'.toNat ≤ c.toNat ∧ c.toNat ≤ 'f'.toNat then some (c.toNat - 'a'.toNat + 10)
  else if 'A'.toNat ≤ c.toNat ∧ c.toNat ≤ 'F'.toNat then some (c.toNat - 'A'.toNat + 10)
  else none

/-- The decoder's getu4 on the four characters after a backslash and u. -/
def getu4 (a b c d : Char) : Option Nat :=
  match hexVal a, hexVal b, hexVal c, hexVal d with
  | some x, some y, some z, some w => some (((x * 16 + y) * 16 + z) * 16 + w)
  | _, _, _, _ => none

/-- The run of digits at the head of the input, and what follows it. -/
def spanDigits : List Char → List Char × List Char
  | [] => ([], [])
  | c :: cs =>
    if isDigit c then
      let r := spanDigits cs
      (c :: r.1, r.2)
    else ([], c :: cs)

/-- The exponent part of a number literal, if one starts here. -/
def scanExponent (cs : List Char) : Except GoError (List Char × List Char) :=
  match cs with
  | e :: rest =>
    if e = 'e' ∨ e = 'E' then
      let (sign, rest1) :=
        match rest with
        | s :: rest1 => if s = '+' ∨ s = '-' then ([s], rest1) else ([], rest)
        | [] => ([], rest)
      match spanDigits rest1 with
      | ([], []) => .error (.lib "unexpected EOF")
      | ([], _) => .error (.lib "invalid character in exponent of numeric literal")
      | (ds, rest2) => .ok (e :: (sign ++ ds), rest2)
    else .ok ([], cs)
  | [] => .ok ([], [])

/-- The fraction part of a number literal, if one starts here. -/
def scanFraction (cs : List Char) : Except GoError (List Char × List Char) :=
  match cs with
  | '.' :: rest =>
    match spanDigits rest with
    | ([], []) => .error (.lib "unexpected EOF")
    | ([], _) => .error (.lib "invalid character after decimal point in numeric literal")
    | (ds, rest1) => .ok ('.' :: ds, rest1)
  | _ => .ok ([], cs)

/-- The integer part of a number literal: a single 0, or a non-zero digit and the digits
after it. -/
def scanIntPart (cs : List Char) : Except GoError (List Char × List Char) :=
  match cs with
  | [] => .error (.lib "unexpected EOF")
  | c :: rest =>
    if c = '0' then .ok (['0'], rest)
    else if isDigit c then
      let r := spanDigits rest
      .ok (c :: r.1, r.2)
    else .error (.lib "invalid character in numeric literal")

/-- A number literal without sign at the head of the input: its text and what follows
it. -/
def scanUnsigned (cs : List Char) : Except GoError (List Char × List Char) :=
  match scanIntPart cs with
  | .error e => .error e
  | .ok (ip, rest1) =>
    match scanFraction rest1 with
    | .error e => .error e
    | .ok (fp, rest2) =>
      match scanExponent rest2 with
      | .error e => .error e
      | .ok (ep, rest3) => .ok (ip ++ (fp ++ ep), rest3)

/-- A number literal at the head of the input: its text and what follows it. -/
def scanNumber (cs : List Char) : Except GoError (List Char × List Char) :=
  match cs with
  | [] => scanUnsigned []
  | c :: rest =>
    if c = '-' then
      match scanUnsigned rest with
      | .ok (lit, rest1) => .ok ('-' :: lit, rest1)
      | .error e => .error e
    else scanUnsigned (c :: rest)

/-- The character an escaped \u value stands for; a lone surrogate becomes U+FFFD. -/
def runeOf (n : Nat) : Char :=
  if 0xD800 ≤ n ∧ n < 0xE000 then Char.ofNat 0xFFFD else Char.ofNat n

/-- The character a pair of escaped surrogates stands for, when the input goes on with
the escape of a low surrogate. -/
def lowSurrogate (rr : Nat) : List Char → Option (Char × List Char)
  | '\\' :: 'u' :: a :: b :: c :: d :: rest =>
    match getu4 a b c d with
    | some rr1 =>
      if 0xDC00 ≤ rr1 ∧ rr1 < 0xE000 then
        some (Char.ofNat ((rr - 0xD800) * 1024 + (rr1 - 0xDC00) + 0x10000), rest)
      else none
    | none => none
  | _ => none

/-- The character a one-letter escape stands for. -/
def unescape (e : Char) : Option Char :=
  if e = '"' ∨ e = '\\' ∨ e = '/' then some e
  else if e = 'b' then some '\x08'
  else if e = 'f' then some '\x0c'
  else if e = 'n' then some '\n'
  else if e = 'r' then some '\r'
  else if e = 't' then some '\t'
  else none

/-- The body of a string literal after its opening quote: the unquoted text and what
follows the closing quote. The fuel bounds the number of characters read; the parser
gives more than the input has. -/
def scanString : Nat → List Char → Except GoError (List Char × List Char)
  | 0, _ => .error .outsideEmbedding
  | _ + 1, [] => .error (.lib "unexpected EOF")
  | fuel + 1, c :: cs =>
    if c = '"' then .ok ([], cs)
    else if c = '\\' then
      match cs with
      | [] => .error (.lib "unexpected EOF")
      | e :: rest =>
        if e = 'u' then
          match rest with
          | a :: b :: c1 :: d :: rest1 =>
            match getu4 a b c1 d with
            | none => .error (.lib "invalid character in \\u hexadecimal character escape")
            | some rr =>
              let pair := if 0xD800 ≤ rr ∧ rr < 0xDC00 then lowSurrogate rr rest1 else none
              match pair with
              | some (ch, rest2) =>
                match scanString fuel rest2 with
                | .ok (s, r) => .ok (ch :: s, r)
                | .error err => .error err
              | none =>
                match scanString fuel rest1 with
                | .ok (s, r) => .ok (runeOf rr :: s, r)
                | .error err => .error err
          | _ => .error (.lib "unexpected EOF")
        else
          match unescape e with
          | none => .error (.lib "invalid character in string escape code")
          | some ch =>
            match scanString fuel rest with
            | .ok (s, r) => .ok (ch :: s, r)
            | .error err => .error err
    else if c.toNat < 0x20 then .error (.lib "invalid character in string literal")
    else
      match scanString fuel cs with
      | .ok (s, r) => .ok (c :: s, r)
      | .error err => .error err

/-- The constant maxNestingDepth of the scanner: the most brackets that may be open at
a time. -/
def maxNestingDepth : Nat := 10000

mutual
/-- One value at the head of the input (leading white space allowed) and what follows
it, inside depth open brackets. The fuel bounds the number of nested calls; the fuel
readValue and unmarshalValue give is never used up. -/
def parseValue : Nat → Nat → List Char → Except GoError (JSON × List Char)
  | 0, _, _ => .error .outsideEmbedding
  | fuel + 1, depth, cs =>
    match skipSpace cs with
    | [] => .error (.lib "unexpected EOF")
    | c :: rest =>
      if c = '{' then
        if maxNestingDepth < depth + 1 then .error (.lib "exceeded max depth")
        else
          match skipSpace rest with
          | [] => .error (.lib "unexpected EOF")
          | c1 :: rest1 =>
            if c1 = '}' then .ok (.obj [], rest1)
            else
              match parseMembers fuel (depth + 1) (c1 :: rest1) with
              | .ok (kvs, rest2) => .ok (.obj kvs, rest2)
              | .error e => .error e
      else if c = '[' then
        if maxNestingDepth < depth + 1 then .error (.lib "exceeded max depth")
        else
          match skipSpace rest with
          | [] => .error (.lib "unexpected EOF")
          | c1 :: rest1 =>
            if c1 = ']' then .ok (.arr [], rest1)
            else
              match parseElems fuel (depth + 1) (c1 :: rest1) with
              | .ok (xs, rest2) => .ok (.arr xs, rest2)
              | .error e => .error e
      else if c = '"' then
        match scanString (rest.length + 1) rest with
        | .ok (s, rest1) => .ok (.str (String.mk s), rest1)
        | .error e => .error e
      else if c = 't' then
        match rest with
        | 'r' :: 'u' :: 'e' :: rest1 => .ok (.bool true, rest1)
        | _ => .error (.lib "invalid character in literal true")
      else if c = 'f' then
        match rest with
        | 'a' :: 'l' :: 's' :: 'e' :: rest1 => .ok (.bool false, rest1)
        | _ => .error (.lib "invalid character in literal false")
      else if c = 'n' then
        match rest with
        | 'u' :: 'l' :: 'l' :: rest1 => .ok (.null, rest1)
        | _ => .error (.lib "invalid character in literal null")
      else if c = '-' ∨ isDigit c then
        match scanNumber (c :: rest) with
        | .ok (lit, rest1) => .ok (.num (String.mk lit), rest1)
        | .error e => .error e
      else .error (.lib "invalid character looking for beginning of value")
/-- The elements of an array after its opening bracket, up to the closing one. -/
def parseElems : Nat → Nat → List Char → Except GoError (List JSON × List Char)
  | 0, _, _ => .error .outsideEmbedding
  | fuel + 1, depth, cs =>
    match parseValue fuel depth cs with
    | .error e => .error e
    | .ok (x, rest) =>
      match skipSpace rest with
      | [] => .error (.lib "unexpected EOF")
      | c :: rest1 =>
        if c = ',' then
          match parseElems fuel depth rest1 with
          | .ok (xs, rest2) => .ok (x :: xs, rest2)
          | .error e => .error e
        else if c = ']' then .ok ([x], rest1)
        else .error (.lib "invalid character after array element")
/-- The members of an object from a key on, up to the closing brace. -/
def parseMembers : Nat → Nat → List Char → Except GoError (List (String × JSON) × List Char)
  | 0, _, _ => .error .outsideEmbedding
  | fuel + 1, depth, cs =>
    match cs with
    | [] => .error (.lib "unexpected EOF")
    | q :: rest =>
      if q = '"' then
        match scanString (rest.length + 1) rest with
        | .error e => .error e
        | .ok (k, rest1) =>
          match skipSpace rest1 with
          | [] => .error (.lib "unexpected EOF")
          | c :: rest2 =>
            if c = ':' then
              match parseValue fuel depth rest2 with
              | .error e => .error e
              | .ok (v, rest3) =>
                match skipSpace rest3 with
                | [] => .error (.lib "unexpected EOF")
                | c1 :: rest4 =>
                  if c1 = ',' then
                    match parseMembers fuel depth (skipSpace rest4) with
                    | .ok (kvs, rest5) => .ok ((String.mk k, v) :: kvs, rest5)
                    | .error e => .error e
                  else if c1 = '}' then .ok ([(String.mk k, v)], rest4)
                  else .error (.lib "invalid character after object key:value pair")
            else .error (.lib "invalid character after object key")
      else .error (.lib "invalid character looking for beginning of object key string")
end

/-- Decoder.Decode up to the typed store: the first JSON value of the stream; what
follows it is left unread. An empty stream is io.EOF. -/
def readValue (body : String) : Except GoError JSON :=
  match skipSpace body.data with
  | [] => .error (.lib "EOF")
  | cs =>
    match parseValue (2 * cs.length + 2) 0 cs with
    | .ok (v, _) => .ok v
    | .error e => .error e

/-- The function json.Unmarshal up to the typed store: the data must be one JSON value
and white space around it. -/
def unmarshalValue (data : String) : Except GoError JSON :=
  match parseValue (2 * data.data.length + 2) 0 data.data with
  | .error e => .error e
  | .ok (v, rest) =>
    match skipSpace rest with
    | [] => .ok v
    | _ :: _ => .error (.lib "invalid character after top-level value")


/-! ### Numbers -/

/-- The decimal digits of a natural number, most significant first. -/
def natDigits : Nat → Nat → List Char
  | 0, _ => []
  | fuel + 1, n =>
    if n < 10 then [Char.ofNat (48 + n)]
    else natDigits fuel (n / 10) ++ [Char.ofNat (48 + n % 10)]

/-- The text strconv.FormatInt(i, 10) gives. -/
def formatInt : Int → List Char
  | .ofNat n => natDigits (n + 1) n
  | .negSucc n => '-' :: natDigits (n + 2) (n + 1)

/-- The value of a run of decimal digits; none for an empty run or another character. -/
def parseDigits : List Char → Option Nat
  | [] => none
  | cs => cs.foldl (fun acc c =>
      match acc with
      | some n => if isDigit c then some (n * 10 + (c.toNat - 48)) else none
      | none => none) (some 0)

/-- The integer a literal of sign and digits denotes; none when it has a fraction or an
exponent. -/
def parseIntLit : List Char → Option Int
  | [] => none
  | c :: rest =>
    if c = '-' then (parseDigits rest).map (fun n => - (n : Int))
    else (parseDigits (c :: rest)).map (fun n => (n : Int))

/-- The result of strconv.ParseInt(s, 10, 64) on a JSON number literal: none for a syntax
or a range error. -/
def parseInt64 (lit : List Char) : Option Int :=
  match parseIntLit lit with
  | some i => if -9223372036854775808 ≤ i ∧ i ≤ 9223372036854775807 then some i else none
  | none => none

/-- The number of binary digits of a natural number. -/
def bitLen : Nat → Nat → Nat
  | 0, _ => 0
  | fuel + 1, n => if n = 0 then 0 else bitLen fuel (n / 2) + 1

/-- The float64 nearest to a natural number, ties to even, as strconv.ParseFloat rounds
(53 significant bits); the result is again an integer. -/
def roundNat (n : Nat) : Nat :=
  let len := bitLen n n
  if len ≤ 53 then n
  else
    let s := len - 53
    let q := n / 2 ^ s
    let r := n % 2 ^ s
    let half := 2 ^ (s - 1)
    let q1 := if half < r ∨ (r = half ∧ q % 2 = 1) then q + 1 else q
    q1 * 2 ^ s

/-- The float64 nearest to an integer. -/
def roundFloat64 : Int → Int
  | .ofNat n => (roundNat n : Int)
  | .negSucc n => - (roundNat (n + 1) : Int)


/-! ### The data model of laneful.go -/

/-- A Go slice: none is the nil slice. -/
abbrev GoSlice (α : Type) := Option (List α)

/-- A Go map with string keys: none is the nil map. A map lists its entries in
increasing key order, each key once (see keysAscending). -/
abbrev GoMap (β : Type) := Option (List (String × β))

/-- A dynamic value held in an interface{}: the values modelled are nil, bool, string,
int64, a float64 holding an integer, a non-nil []interface{}, a non-nil
map[string]interface{}, and a value json.Marshal rejects (a channel, a function, NaN). -/
inductive GoValue where
  | nil
  | bool (b : Bool)
  | string (s : String)
  | int64 (i : Int)
  | float64 (v : Int)
  | slice (xs : List GoValue)
  | map (kvs : List (String × GoValue))
  | unsupported
deriving Repr

/-- Address represents an email address with an optional name. -/
structure Address where
  /-- Tag: json:"email". -/
  Email : String
  /-- Tag: json:"name,omitempty". -/
  Name : String
deriving DecidableEq, Repr

/-- Attachment represents an email attachment. -/
structure Attachment where
  /-- Tag: json:"file_name,omitempty". -/
  FileName : String
  /-- Tag: json:"content,omitempty". -/
  Content : String
  /-- Tag: json:"content_type". -/
  ContentType : String
  /-- Tag: json:"inline_id,omitempty". -/
  InlineID : String
deriving DecidableEq, Repr

/-- TrackingSettings controls email tracking and unsubscribe settings. -/
structure TrackingSettings where
  /-- Tag: json:"opens,omitempty". -/
  Opens : Bool
  /-- Tag: json:"clicks,omitempty". -/
  Clicks : Bool
  /-- Tag: json:"unsubscribes,omitempty". -/
  Unsubscribes : Bool
  /-- Tag: json:"unsubscribe_group_id,omitempty"; a *int64. -/
  UnsubscribeGroupID : Option Int
deriving DecidableEq, Repr

/-- Email represents a single email to be sent. -/
structure Email where
  /-- Tag: json:"from". -/
  From : Address
  /-- Tag: json:"to,omitempty". -/
  To : GoSlice Address
  /-- Tag: json:"cc,omitempty". -/
  CC : GoSlice Address
  /-- Tag: json:"bcc,omitempty". -/
  BCC : GoSlice Address
  /-- Tag: json:"subject,omitempty". -/
  Subject : String
  /-- Tag: json:"text_content,omitempty". -/
  TextContent : String
  /-- Tag: json:"html_content,omitempty". -/
  HTMLContent : String
  /-- Tag: json:"template_id,omitempty". -/
  TemplateID : String
  /-- Tag: json:"template_data,omitempty"; a map[string]interface{}. -/
  TemplateData : GoMap GoValue
  /-- Tag: json:"attachments,omitempty". -/
  Attachments : GoSlice Attachment
  /-- Tag: json:"headers,omitempty". -/
  Headers : GoMap String
  /-- Tag: json:"reply_to,omitempty"; a *Address. -/
  ReplyTo : Option Address
  /-- Tag: json:"send_time,omitempty"; an int64. -/
  SendTime : Int
  /-- Tag: json:"webhook_data,omitempty". -/
  WebhookData : GoMap String
  /-- Tag: json:"tag,omitempty". -/
  Tag : String
  /-- Tag: json:"tracking,omitempty"; a *TrackingSettings. -/
  Tracking : Option TrackingSettings
deriving Repr

/-- EmailRequest represents the request body for sending emails. -/
structure EmailRequest where
  /-- Tag: json:"emails". -/
  Emails : GoSlice Email
deriving Repr

/-- ApiResponse represents a successful API response. -/
structure ApiResponse where
  /-- Tag: json:"status". -/
  Status : String
deriving DecidableEq, Repr

/-- ApiErrorResponse represents an error API response. -/
structure ApiErrorResponse where
  /-- Tag: json:"error". -/
  Error : String
deriving DecidableEq, Repr

/-- The zero value of Address. -/
def Address.zero : Address := ⟨"", ""⟩

/-- The zero value of Attachment. -/
def Attachment.zero : Attachment := ⟨"", "", "", ""⟩

/-- The zero value of TrackingSettings. -/
def TrackingSettings.zero : TrackingSettings := ⟨false, false, false, none⟩

/-- The zero value of Email. -/
def Email.zero : Email :=
  { From := Address.zero, To := none, CC := none, BCC := none, Subject := "",
    TextContent := "", HTMLContent := "", TemplateID := "", TemplateData := none,
    Attachments := none, Headers := none, ReplyTo := none, SendTime := 0,
    WebhookData := none, Tag := "", Tracking := none }

/-! ### json.Marshal on the data model -/

/-- Byte-wise order of two strings, which on UTF-8 text is the order of code points. -/
def ltChars : List Char → List Char → Bool
  | [], [] => false
  | [], _ :: _ => true
  | _ :: _, [] => false
  | a :: as, b :: bs =>
    if a.toNat < b.toNat then true
    else if b.toNat < a.toNat then false
    else ltChars as bs

/-- The order the encoder sorts map keys by. -/
def keyLt (a b : String) : Bool := ltChars a.data b.data

/-- One entry put into a key-sorted list, after the entries it does not precede. -/
def insertByKey {β : Type} (e : String × β) : List (String × β) → List (String × β)
  | [] => [e]
  | x :: rest => if keyLt e.1 x.1 then e :: x :: rest else x :: insertByKey e rest

/-- The entries of a map in the encoder's order. -/
def sortByKey {β : Type} : List (String × β) → List (String × β)
  | [] => []
  | e :: rest => insertByKey e (sortByKey rest)

/-- A struct field as the encoder writes it: left out when it is tagged omitempty and
its value is empty (false, 0, a nil pointer or interface, an empty slice, map or
string). -/
def field (name : String) (omitempty : Bool) (isEmpty : Bool) (v : JSON) : List (String × JSON) :=
  if omitempty && isEmpty then [] else [(name, v)]

/-- A string as a JSON value. -/
def marshalString (s : String) : JSON := .str s

/-- An int64 as a JSON value. -/
def marshalInt64 (i : Int) : JSON := .num (String.mk (formatInt i))

/-- A slice as a JSON value: null when nil. -/
def marshalSlice {α : Type} (f : α → JSON) : GoSlice α → JSON
  | none => .null
  | some xs => .arr (xs.map f)

/-- A map[string]string as a JSON value: null when nil, keys sorted. -/
def marshalStringMap : GoMap String → JSON
  | none => .null
  | some kvs => .obj ((sortByKey kvs).map (fun kv => (kv.1, marshalString kv.2)))

/-- A pointer as a JSON value: null when nil. -/
def marshalPtr {α : Type} (f : α → JSON) : Option α → JSON
  | none => .null
  | some x => f x

/-- The emptiness test of omitempty on a slice or map: its length is zero. -/
def isEmptyList {α : Type} : Option (List α) → Bool
  | none => true
  | some xs => xs.isEmpty

mutual
/-- A dynamic value as a JSON value. -/
def marshalValue : GoValue → Except GoError JSON
  | .nil => .ok .null
  | .bool b => .ok (.bool b)
  | .string s => .ok (.str s)
  | .int64 i => .ok (marshalInt64 i)
  | .float64 v =>
    if -9007199254740992 ≤ v ∧ v ≤ 9007199254740992 then .ok (.num (String.mk (formatInt v)))
    else .error .outsideEmbedding
  | .slice xs =>
    match marshalValues xs with
    | .ok js => .ok (.arr js)
    | .error e => .error e
  | .map kvs =>
    match marshalEntries kvs with
    | .ok ms => .ok (.obj (sortByKey ms))
    | .error e => .error e
  | .unsupported => .error (.lib "json: unsupported type or value")
/-- The elements of a []interface{}. -/
def marshalValues : List GoValue → Except GoError (List JSON)
  | [] => .ok []
  | x :: rest =>
    match marshalValue x with
    | .error e => .error e
    | .ok j =>
      match marshalValues rest with
      | .ok js => .ok (j :: js)
      | .error e => .error e
/-- The entries of a map[string]interface{}. -/
def marshalEntries : List (String × GoValue) → Except GoError (List (String × JSON))
  | [] => .ok []
  | (k, v) :: rest =>
    match marshalValue v with
    | .error e => .error e
    | .ok j =>
      match marshalEntries rest with
      | .ok ms => .ok ((k, j) :: ms)
      | .error e => .error e
end

/-- A map[string]interface{} as a JSON value: null when nil, keys sorted. -/
def marshalValueMap : GoMap GoValue → Except GoError JSON
  | none => .ok .null
  | some kvs =>
    match marshalEntries kvs with
    | .ok ms => .ok (.obj (sortByKey ms))
    | .error e => .error e

/-- Address as the encoder writes it. -/
def marshalAddress (a : Address) : JSON :=
  .obj (field "email" false a.Email.isEmpty (marshalString a.Email)
    ++ field "name" true a.Name.isEmpty (marshalString a.Name))

/-- Attachment as the encoder writes it. -/
def marshalAttachment (a : Attachment) : JSON :=
  .obj (field "file_name" true a.FileName.isEmpty (marshalString a.FileName)
    ++ field "content" true a.Content.isEmpty (marshalString a.Content)
    ++ field "content_type" false a.ContentType.isEmpty (marshalString a.ContentType)
    ++ field "inline_id" true a.InlineID.isEmpty (marshalString a.InlineID))

/-- TrackingSettings as the encoder writes it. -/
def marshalTrackingSettings (t : TrackingSettings) : JSON :=
  .obj (field "opens" true (!t.Opens) (.bool t.Opens)
    ++ field "clicks" true (!t.Clicks) (.bool t.Clicks)
    ++ field "unsubscribes" true (!t.Unsubscribes) (.bool t.Unsubscribes)
    ++ field "unsubscribe_group_id" true t.UnsubscribeGroupID.isNone
        (marshalPtr marshalInt64 t.UnsubscribeGroupID))

/-- Email as the encoder writes it; only template_data can make it fail. -/
def marshalEmail (e : Email) : Except GoError JSON :=
  match marshalValueMap e.TemplateData with
  | .error err => .error err
  | .ok td =>
    .ok (.obj (field "from" false false (marshalAddress e.From)
      ++ field "to" true (isEmptyList e.To) (marshalSlice marshalAddress e.To)
      ++ field "cc" true (isEmptyList e.CC) (marshalSlice marshalAddress e.CC)
      ++ field "bcc" true (isEmptyList e.BCC) (marshalSlice marshalAddress e.BCC)
      ++ field "subject" true e.Subject.isEmpty (marshalString e.Subject)
      ++ field "text_content" true e.TextContent.isEmpty (marshalString e.TextContent)
      ++ field "html_content" true e.HTMLContent.isEmpty (marshalString e.HTMLContent)
      ++ field "template_id" true e.TemplateID.isEmpty (marshalString e.TemplateID)
      ++ field "template_data" true (isEmptyList e.TemplateData) td
      ++ field "attachments" true (isEmptyList e.Attachments)
          (marshalSlice marshalAttachment e.Attachments)
      ++ field "headers" true (isEmptyList e.Headers) (marshalStringMap e.Headers)
      ++ field "reply_to" true e.ReplyTo.isNone (marshalPtr marshalAddress e.ReplyTo)
      ++ field "send_time" true (e.SendTime == 0) (marshalInt64 e.SendTime)
      ++ field "webhook_data" true (isEmptyList e.WebhookData) (marshalStringMap e.WebhookData)
      ++ field "tag" true e.Tag.isEmpty (marshalString e.Tag)
      ++ field "tracking" true e.Tracking.isNone (marshalPtr marshalTrackingSettings e.Tracking)))

/-- The emails of a request, in order. -/
def marshalEmails : List Email → Except GoError (List JSON)
  | [] => .ok []
  | e :: rest =>
    match marshalEmail e with
    | .error err => .error err
    | .ok j =>
      match marshalEmails rest with
      | .ok js => .ok (j :: js)
      | .error err => .error err

/-- EmailRequest as the encoder writes it. -/
def marshalEmailRequest (r : EmailRequest) : Except GoError JSON :=
  match r.Emails with
  | none => .ok (.obj (field "emails" false true .null))
  | some es =>
    match marshalEmails es with
    | .ok js => .ok (.obj (field "emails" false es.isEmpty (.arr js)))
    | .error err => .error err

/-- The bytes json.Marshal returns for an EmailRequest. -/
def jsonMarshal (r : EmailRequest) : Except GoError String :=
  match marshalEmailRequest r with
  | .ok j => .ok (String.mk (render j))
  | .error err => .error err


/-! ### json decoding into the data model -/

/-- The decoder's type error: the JSON value does not fit the Go type. -/
def typeError (goType : String) : GoError :=
  .lib ("json: cannot unmarshal value into Go value of type " ++ goType)

/-- One character of a name folded as the decoder's foldName folds it: ASCII letters to
upper case, and the two other characters whose case orbit holds an ASCII letter. -/
def foldChar (c : Char) : Char :=
  if 'a'.toNat ≤ c.toNat ∧ c.toNat ≤ 'z'.toNat then Char.ofNat (c.toNat - 32)
  else if c.toNat = 0x17F then 'S'
  else if c.toNat = 0x212A then 'K'
  else c

/-- The decoder's foldName. -/
def foldName (s : String) : List Char := s.data.map foldChar

/-- The field a key of a JSON object addresses: the field of that exact name, else the
first field whose name is the same after folding. -/
def findField (names : List String) (key : String) : Option String :=
  match names.find? (fun n => n == key) with
  | some n => some n
  | none => names.find? (fun n => foldName n == foldName key)

/-- An entry stored in a map: in place of the entry of the same key, else at its place
in key order. -/
def mapSet {β : Type} (k : String) (v : β) : List (String × β) → List (String × β)
  | [] => [(k, v)]
  | x :: rest =>
    if keyLt k x.1 then (k, v) :: x :: rest
    else if x.1 == k then (k, v) :: rest
    else x :: mapSet k v rest

/-- A JSON value stored into a string: null leaves it as it was. -/
def decodeString (old : String) : JSON → Except GoError String
  | .null => .ok old
  | .str s => .ok s
  | _ => .error (typeError "string")

/-- A JSON value stored into a bool. -/
def decodeBool (old : Bool) : JSON → Except GoError Bool
  | .null => .ok old
  | .bool b => .ok b
  | _ => .error (typeError "bool")

/-- A JSON value stored into an int64. -/
def decodeInt64 (old : Int) : JSON → Except GoError Int
  | .null => .ok old
  | .num lit =>
    match parseInt64 lit.data with
    | some i => .ok i
    | none => .error (typeError "int64")
  | _ => .error (typeError "int64")

/-- A JSON value stored into a pointer: null makes it nil, another value is stored into
what it points to, a fresh zero value when it was nil. -/
def decodePtr {α : Type} (zero : α) (f : α → JSON → Except GoError α) (old : Option α) :
    JSON → Except GoError (Option α)
  | .null => .ok none
  | j =>
    match f (old.getD zero) j with
    | .ok x => .ok (some x)
    | .error e => .error e

/-- The elements of a JSON array, each stored into a fresh zero value. -/
def decodeElems {α : Type} (zero : α) (f : α → JSON → Except GoError α) :
    List JSON → Except GoError (List α)
  | [] => .ok []
  | j :: rest =>
    match f zero j with
    | .error e => .error e
    | .ok x =>
      match decodeElems zero f rest with
      | .ok xs => .ok (x :: xs)
      | .error e => .error e

/-- A JSON value stored into a slice: null makes it nil, an array replaces it. The
elements of the array are stored into fresh zero values, as the decoder does for a nil
slice; for another slice it stores into the elements the backing array already has,
which is outside the embedding. -/
def decodeSlice {α : Type} (goType : String) (zero : α) (f : α → JSON → Except GoError α)
    (old : GoSlice α) : JSON → Except GoError (GoSlice α)
  | .null => .ok none
  | .arr xs =>
    match old with
    | some _ => .error .outsideEmbedding
    | none =>
      match decodeElems zero f xs with
      | .ok ys => .ok (some ys)
      | .error e => .error e
  | _ => .error (typeError goType)

/-- The members of a JSON object stored one after the other into a map[string]string. -/
def decodeStringEntries : List (String × JSON) → List (String × String) →
    Except GoError (List (String × String))
  | [], m => .ok m
  | (k, j) :: rest, m =>
    match decodeString "" j with
    | .error e => .error e
    | .ok s => decodeStringEntries rest (mapSet k s m)

/-- A JSON value stored into a map[string]string: null makes it nil, an object adds its
members to the map, a fresh one when it was nil. -/
def decodeStringMap (old : GoMap String) : JSON → Except GoError (GoMap String)
  | .null => .ok none
  | .obj kvs =>
    match decodeStringEntries kvs (old.getD []) with
    | .ok m => .ok (some m)
    | .error e => .error e
  | _ => .error (typeError "map[string]string")

/-- A number literal stored into an interface{}: the float64 strconv.ParseFloat gives.
Only literals without fraction and exponent are modelled, and not the negative zero. -/
def decodeNumber (lit : String) : Except GoError GoValue :=
  match parseIntLit lit.data with
  | none => .error .outsideEmbedding
  | some i =>
    if i = 0 ∧ lit.data.head? = some '-' then .error .outsideEmbedding
    else
      let v := roundFloat64 i
      if -(2 ^ 1024) < v ∧ v < 2 ^ 1024 then .ok (.float64 v)
      else .error (typeError "float64")

mutual
/-- A JSON value stored into an interface{}. -/
def decodeValue : JSON → Except GoError GoValue
  | .null => .ok .nil
  | .bool b => .ok (.bool b)
  | .num lit => decodeNumber lit
  | .str s => .ok (.string s)
  | .arr xs =>
    match decodeValues xs with
    | .ok vs => .ok (.slice vs)
    | .error e => .error e
  | .obj kvs =>
    match decodeEntries kvs [] with
    | .ok m => .ok (.map m)
    | .error e => .error e
/-- The elements of a JSON array stored into a []interface{}. -/
def decodeValues : List JSON → Except GoError (List GoValue)
  | [] => .ok []
  | j :: rest =>
    match decodeValue j with
    | .error e => .error e
    | .ok v =>
      match decodeValues rest with
      | .ok vs => .ok (v :: vs)
      | .error e => .error e
/-- The members of a JSON object stored one after the other into a
map[string]interface{}. -/
def decodeEntries : List (String × JSON) → List (String × GoValue) →
    Except GoError (List (String × GoValue))
  | [], m => .ok m
  | (k, j) :: rest, m =>
    match decodeValue j with
    | .error e => .error e
    | .ok v => decodeEntries rest (mapSet k v m)
end

/-- A JSON value stored into a map[string]interface{}. -/
def decodeValueMap (old : GoMap GoValue) : JSON → Except GoError (GoMap GoValue)
  | .null => .ok none
  | .obj kvs =>
    match decodeEntries kvs (old.getD []) with
    | .ok m => .ok (some m)
    | .error e => .error e
  | _ => .error (typeError "map[string]interface {}")

/-- The members of a JSON object stored one after the other into the fields of a struct;
a key that addresses no field is skipped. -/
def decodeFields {α : Type} (names : List String) (store : α → String → JSON → Except GoError α) :
    List (String × JSON) → α → Except GoError α
  | [], x => .ok x
  | (k, j) :: rest, x =>
    match findField names k with
    | none => decodeFields names store rest x
    | some n =>
      match store x n j with
      | .error e => .error e
      | .ok y => decodeFields names store rest y

/-- A JSON value stored into a struct: null leaves it as it was. -/
def decodeStruct {α : Type} (goType : String) (names : List String)
    (store : α → String → JSON → Except GoError α) (old : α) : JSON → Except GoError α
  | .null => .ok old
  | .obj kvs => decodeFields names store kvs old
  | _ => .error (typeError goType)

/-- The JSON names of the fields of Address. -/
def Address.names : List String := ["email", "name"]

/-- A JSON value stored into the named field of an Address. -/
def Address.store (a : Address) (name : String) (j : JSON) : Except GoError Address :=
  if name = "email" then (decodeString a.Email j).map (fun s => { a with Email := s })
  else if name = "name" then (decodeString a.Name j).map (fun s => { a with Name := s })
  else .ok a

/-- A JSON value stored into an Address. -/
def decodeAddress : Address → JSON → Except GoError Address :=
  decodeStruct "Address" Address.names Address.store

/-- The JSON names of the fields of Attachment. -/
def Attachment.names : List String := ["file_name", "content", "content_type", "inline_id"]

/-- A JSON value stored into the named field of an Attachment. -/
def Attachment.store (a : Attachment) (name : String) (j : JSON) : Except GoError Attachment :=
  if name = "file_name" then (decodeString a.FileName j).map (fun s => { a with FileName := s })
  else if name = "content" then (decodeString a.Content j).map (fun s => { a with Content := s })
  else if name = "content_type" then
    (decodeString a.ContentType j).map (fun s => { a with ContentType := s })
  else if name = "inline_id" then (decodeString a.InlineID j).map (fun s => { a with InlineID := s })
  else .ok a

/-- A JSON value stored into an Attachment. -/
def decodeAttachment : Attachment → JSON → Except GoError Attachment :=
  decodeStruct "Attachment" Attachment.names Attachment.store

/-- The JSON names of the fields of TrackingSettings. -/
def TrackingSettings.names : List String :=
  ["opens", "clicks", "unsubscribes", "unsubscribe_group_id"]

/-- A JSON value stored into the named field of a TrackingSettings. -/
def TrackingSettings.store (t : TrackingSettings) (name : String) (j : JSON) :
    Except GoError TrackingSettings :=
  if name = "opens" then (decodeBool t.Opens j).map (fun b => { t with Opens := b })
  else if name = "clicks" then (decodeBool t.Clicks j).map (fun b => { t with Clicks := b })
  else if name = "unsubscribes" then
    (decodeBool t.Unsubscribes j).map (fun b => { t with Unsubscribes := b })
  else if name = "unsubscribe_group_id" then
    (decodePtr 0 decodeInt64 t.UnsubscribeGroupID j).map
      (fun p => { t with UnsubscribeGroupID := p })
  else .ok t

/-- A JSON value stored into a TrackingSettings. -/
def decodeTrackingSettings : TrackingSettings → JSON → Except GoError TrackingSettings :=
  decodeStruct "TrackingSettings" TrackingSettings.names TrackingSettings.store

/-- The JSON names of the fields of Email. -/
def Email.names : List String :=
  ["from", "to", "cc", "bcc", "subject", "text_content", "html_content", "template_id",
   "template_data", "attachments", "headers", "reply_to", "send_time", "webhook_data", "tag",
   "tracking"]

/-- A JSON value stored into the named field of an Email. -/
def Email.store (e : Email) (name : String) (j : JSON) : Except GoError Email :=
  if name = "from" then (decodeAddress e.From j).map (fun x => { e with From := x })
  else if name = "to" then
    (decodeSlice "[]Address" Address.zero decodeAddress e.To j).map (fun x => { e with To := x })
  else if name = "cc" then
    (decodeSlice "[]Address" Address.zero decodeAddress e.CC j).map (fun x => { e with CC := x })
  else if name = "bcc" then
    (decodeSlice "[]Address" Address.zero decodeAddress e.BCC j).map
      (fun x => { e with BCC := x })
  else if name = "subject" then (decodeString e.Subject j).map (fun x => { e with Subject := x })
  else if name = "text_content" then
    (decodeString e.TextContent j).map (fun x => { e with TextContent := x })
  else if name = "html_content" then
    (decodeString e.HTMLContent j).map (fun x => { e with HTMLContent := x })
  else if name = "template_id" then
    (decodeString e.TemplateID j).map (fun x => { e with TemplateID := x })
  else if name = "template_data" then
    (decodeValueMap e.TemplateData j).map (fun x => { e with TemplateData := x })
  else if name = "attachments" then
    (decodeSlice "[]Attachment" Attachment.zero decodeAttachment e.Attachments j).map
      (fun x => { e with Attachments := x })
  else if name = "headers" then
    (decodeStringMap e.Headers j).map (fun x => { e with Headers := x })
  else if name = "reply_to" then
    (decodePtr Address.zero decodeAddress e.ReplyTo j).map (fun x => { e with ReplyTo := x })
  else if name = "send_time" then
    (decodeInt64 e.SendTime j).map (fun x => { e with SendTime := x })
  else if name = "webhook_data" then
    (decodeStringMap e.WebhookData j).map (fun x => { e with WebhookData := x })
  else if name = "tag" then (decodeString e.Tag j).map (fun x => { e with Tag := x })
  else if name = "tracking" then
    (decodePtr TrackingSettings.zero decodeTrackingSettings e.Tracking j).map
      (fun x => { e with Tracking := x })
  else .ok e

/-- A JSON value stored into the named field of an ApiResponse. -/
def ApiResponse.store (r : ApiResponse) (name : String) (j : JSON) : Except GoError ApiResponse :=
  if name = "status" then (decodeString r.Status j).map (fun s => { r with Status := s })
  else .ok r

/-- A JSON value stored into an ApiResponse. -/
def decodeApiResponse : ApiResponse → JSON → Except GoError ApiResponse :=
  decodeStruct "ApiResponse" ["status"] ApiResponse.store

/-- A JSON value stored into the named field of an ApiErrorResponse. -/
def ApiErrorResponse.store (r : ApiErrorResponse) (name : String) (j : JSON) :
    Except GoError ApiErrorResponse :=
  if name = "error" then (decodeString r.Error j).map (fun s => { r with Error := s })
  else .ok r

/-- A JSON value stored into an ApiErrorResponse. -/
def decodeApiErrorResponse : ApiErrorResponse → JSON → Except GoError ApiErrorResponse :=
  decodeStruct "ApiErrorResponse" ["error"] ApiErrorResponse.store

/-- A context.Context as the call sees it: what its Err method reports. -/
structure Context where
  Err : Option GoError
deriving DecidableEq, Repr

/-- An http.Request as SendEmails builds it. -/
structure Request where
  ctx : Context
  Method : String
  URL : String
  Header : List (String × String)
  Body : String
deriving DecidableEq, Repr

/-- An http.Response as SendEmails reads it: the status code and the text the body
yields when it is read to its end. -/
structure Response where
  StatusCode : Int
  Body : String
deriving DecidableEq, Repr

/-- The http.Client of NewLanefulClient: its total-call timeout in seconds and the
InsecureSkipVerify setting of its TLS configuration. -/
structure HTTPClient where
  TimeoutSeconds : Nat
  InsecureSkipVerify : Bool
deriving DecidableEq, Repr

/-- LanefulClient handles communication with the email service. -/
structure LanefulClient where
  baseURL : String
  httpClient : HTTPClient
  authToken : String
deriving DecidableEq, Repr

/-- What SendEmails calls outside this repository and outside encoding/json: the URL
parser of net/url, of which only failure or success matters here, and the Do method of
http.Client. -/
structure Env where
  parseURL : String → Except GoError Unit
  Do : HTTPClient → Request → Except GoError Response

/-- What a call did that can be seen from outside, in order. -/
inductive Event where
  /-- A request handed to the transport, and what the transport returned for it. -/
  | roundTrip (req : Request) (reply : Except GoError Response)
  /-- The response body read by a JSON decoder. -/
  | decodeBody (body : String)
  /-- The response body closed. -/
  | closeBody

/-- The outcome of a call: what it did and what it returned, a response or an error. -/
structure Outcome where
  events : List Event
  result : Except GoError ApiResponse

/-- The requests a call handed to the transport, in order. -/
def Outcome.requests (o : Outcome) : List Request :=
  o.events.filterMap (fun ev =>
    match ev with
    | .roundTrip req _ => some req
    | _ => none)

/-- The response bodies a call read, in order. -/
def Outcome.bodiesRead (o : Outcome) : List String :=
  o.events.filterMap (fun ev =>
    match ev with
    | .decodeBody body => some body
    | _ => none)

/-- The constant http.StatusOK. -/
def StatusOK : Int := 200

/-- NewLanefulClient creates a new instance of LanefulClient. -/
def NewLanefulClient (baseURL authToken : String) : LanefulClient :=
  let insecure := false
  { baseURL := baseURL
    httpClient := { TimeoutSeconds := 30, InsecureSkipVerify := insecure }
    authToken := authToken }

/-- The call http.NewRequestWithContext(ctx, "POST", url, body): it fails on a nil
context and on a URL that does not parse (the method POST is valid). -/
def newRequestWithContext (env : Env) (ctx : Option Context) (method url body : String) :
    Except GoError Request :=
  match ctx with
  | none => .error (.lib "net/http: nil Context")
  | some c =>
    match env.parseURL url with
    | .error e => .error e
    | .ok _ => .ok { ctx := c, Method := method, URL := url, Header := [], Body := body }

/-- The method Header.Set on keys that are already in canonical form: the value replaces
those of the key. -/
def headerSet (key value : String) (h : List (String × String)) : List (String × String) :=
  h.filter (fun kv => kv.1 != key) ++ [(key, value)]

/-- The call json.NewDecoder(body).Decode(&apiResp) on a zero ApiResponse. -/
def decodeApiResponseBody (body : String) : Except GoError ApiResponse :=
  match readValue body with
  | .error e => .error e
  | .ok j => decodeApiResponse ⟨""⟩ j

/-- The call json.NewDecoder(body).Decode(&errResp) on a zero ApiErrorResponse. -/
def decodeApiErrorResponseBody (body : String) : Except GoError ApiErrorResponse :=
  match readValue body with
  | .error e => .error e
  | .ok j => decodeApiErrorResponse ⟨""⟩ j

/-- SendEmails sends one or more emails through the email service. -/
def SendEmails (env : Env) (c : LanefulClient) (ctx : Option Context) (emails : GoSlice Email) :
    Outcome :=
  let reqBody : EmailRequest := { Emails := emails }
  match jsonMarshal reqBody with
  | .error err => ⟨[], .error (.wrapf "failed to marshal request: " err)⟩
  | .ok jsonData =>
    match newRequestWithContext env ctx "POST" (c.baseURL ++ "/v1/email/send") jsonData with
    | .error err => ⟨[], .error (.wrapf "failed to create request: " err)⟩
    | .ok req0 =>
      let req1 := { req0 with Header := headerSet "Content-Type" "application/json" req0.Header }
      let req :=
        { req1 with Header := headerSet "Authorization" ("Bearer " ++ c.authToken) req1.Header }
      match env.Do c.httpClient req with
      | .error err =>
        ⟨[.roundTrip req (.error err)], .error (.wrapf "failed to send request: " err)⟩
      | .ok resp =>
        if resp.StatusCode ≠ StatusOK then
          match decodeApiErrorResponseBody resp.Body with
          | .error err =>
            ⟨[.roundTrip req (.ok resp), .decodeBody resp.Body, .closeBody],
              .error (.wrapf "failed to decode error response: " err)⟩
          | .ok errResp =>
            ⟨[.roundTrip req (.ok resp), .decodeBody resp.Body, .closeBody],
              .error (.msgf ("API error: " ++ errResp.Error))⟩
        else
          match decodeApiResponseBody resp.Body with
          | .error err =>
            ⟨[.roundTrip req (.ok resp), .decodeBody resp.Body, .closeBody],
              .error (.wrapf "failed to decode response: " err)⟩
          | .ok apiResp =>
            ⟨[.roundTrip req (.ok resp), .decodeBody resp.Body, .closeBody], .ok apiResp⟩

/-- SendEmail is a convenience method to send a single email. -/
def SendEmail (env : Env) (c : LanefulClient) (ctx : Option Context) (email : Email) : Outcome :=
  SendEmails env c ctx (some [email])


/-- The bytes json.Marshal returns for an Email. -/
def jsonMarshalEmail (e : Email) : Except GoError String :=
  match marshalEmail e with
  | .ok j => .ok (String.mk (render j))
  | .error err => .error err

/-! ### Notions the statements use -/

/-- A result the embedding vouches for: a value or a Go error, not the mark that the input
lies outside the embedding or that fuel ran out. -/
def Modelled {α : Type} (r : Except GoError α) : Prop := r ≠ .error .outsideEmbedding

/-- What may follow a value inside a document: nothing, a comma or a closing bracket. -/
def Terminated (rest : List Char) : Prop :=
  ∀ c tl, rest = c :: tl → c = ',' ∨ c = ']' ∨ c = '}'

/-- The request the specification describes: method POST, the send endpoint under the
base URL, the two headers, and the given body. -/
def requestFor (c : LanefulClient) (cx : Context) (data : String) : Request :=
  { ctx := cx, Method := "POST", URL := c.baseURL ++ "/v1/email/send",
    Header := [("Content-Type", "application/json"), ("Authorization", "Bearer " ++ c.authToken)],
    Body := data }

mutual
/-- A document whose number literals are all the decimal text of an integer, as the
encoder writes the numbers of the data model. -/
def JSON.integral : JSON → Prop
  | .num lit => ∃ i : Int, lit = String.mk (formatInt i)
  | .arr xs => JSON.allIntegral xs
  | .obj kvs => JSON.membersIntegral kvs
  | _ => True
/-- The property integral of the elements of an array. -/
def JSON.allIntegral : List JSON → Prop
  | [] => True
  | x :: rest => x.integral ∧ JSON.allIntegral rest
/-- The property integral of the members of an object. -/
def JSON.membersIntegral : List (String × JSON) → Prop
  | [] => True
  | (_, v) :: rest => v.integral ∧ JSON.membersIntegral rest
end

mutual
/-- The most brackets open at a time in the text of a document. -/
def JSON.depth : JSON → Nat
  | .arr xs => JSON.depthAll xs + 1
  | .obj kvs => JSON.depthMembers kvs + 1
  | _ => 0
/-- The greatest depth among the elements of an array. -/
def JSON.depthAll : List JSON → Nat
  | [] => 0
  | x :: rest => max x.depth (JSON.depthAll rest)
/-- The greatest depth among the members of an object. -/
def JSON.depthMembers : List (String × JSON) → Nat
  | [] => 0
  | (_, v) :: rest => max v.depth (JSON.depthMembers rest)
end

mutual
/-- A bound on the fuel the parser spends on the text of a document. -/
def JSON.weight : JSON → Nat
  | .arr xs => JSON.weightAll xs + 1
  | .obj kvs => JSON.weightMembers kvs + 1
  | _ => 1
/-- The bound for the elements of an array. -/
def JSON.weightAll : List JSON → Nat
  | [] => 0
  | x :: rest => x.weight + JSON.weightAll rest + 1
/-- The bound for the members of an object. -/
def JSON.weightMembers : List (String × JSON) → Nat
  | [] => 0
  | (_, v) :: rest => v.weight + JSON.weightMembers rest + 1
end

/-- The member names of a JSON object, in order. -/
def JSON.keys : JSON → List String
  | .obj kvs => kvs.map (fun kv => kv.1)
  | _ => []

/-- Whether a JSON value is null, an empty string, an empty array or an empty object. -/
def JSON.isBlank : JSON → Bool
  | .null => true
  | .str s => s.isEmpty
  | .arr [] => true
  | .obj [] => true
  | _ => false

mutual
/-- Whether some key of the document, at any depth, carries null, an empty string, an
empty array or an empty object. -/
def JSON.hasBlankMember : JSON → Bool
  | .arr xs => JSON.anyHasBlankMember xs
  | .obj kvs => JSON.membersHaveBlank kvs
  | _ => false
/-- The test hasBlankMember on the elements of an array. -/
def JSON.anyHasBlankMember : List JSON → Bool
  | [] => false
  | x :: rest => x.hasBlankMember || JSON.anyHasBlankMember rest
/-- The test hasBlankMember on the members of an object. -/
def JSON.membersHaveBlank : List (String × JSON) → Bool
  | [] => false
  | (_, v) :: rest => v.isBlank || v.hasBlankMember || JSON.membersHaveBlank rest
end

/-- Whether an integer is an int64 value. -/
def isInt64 (i : Int) : Bool := decide (-9223372036854775808 ≤ i ∧ i ≤ 9223372036854775807)

/-- Whether the keys of a list of entries increase strictly: the form in which a map
lists its entries. -/
def keysAscending {β : Type} : List (String × β) → Bool
  | [] => true
  | [_] => true
  | a :: b :: rest => keyLt a.1 b.1 && keysAscending (b :: rest)

mutual
/-- Whether a dynamic value comes back from JSON with the number it held: it is nil, a
bool, a string, an int64 that a float64 holds exactly, a float64 holding an integer of
magnitude at most 2^53, or a slice or map of such values. -/
def GoValue.exact : GoValue → Bool
  | .nil => true
  | .bool _ => true
  | .string _ => true
  | .int64 i => isInt64 i && decide (roundFloat64 i = i)
  | .float64 v => decide (-9007199254740992 ≤ v ∧ v ≤ 9007199254740992) && decide (roundFloat64 v = v)
  | .slice xs => GoValue.allExact xs
  | .map kvs => keysAscending kvs && GoValue.entriesExact kvs
  | .unsupported => false
/-- The test exact on the elements of a slice. -/
def GoValue.allExact : List GoValue → Bool
  | [] => true
  | x :: rest => x.exact && GoValue.allExact rest
/-- The test exact on the values of a map. -/
def GoValue.entriesExact : List (String × GoValue) → Bool
  | [] => true
  | (_, v) :: rest => v.exact && GoValue.entriesExact rest
end

mutual
/-- The most brackets open at a time in the text json.Marshal writes for a dynamic
value. -/
def GoValue.depth : GoValue → Nat
  | .slice xs => GoValue.depthAll xs + 1
  | .map kvs => GoValue.depthEntries kvs + 1
  | _ => 0
/-- The greatest depth among the elements of a slice. -/
def GoValue.depthAll : List GoValue → Nat
  | [] => 0
  | x :: rest => max x.depth (GoValue.depthAll rest)
/-- The greatest depth among the values of a map. -/
def GoValue.depthEntries : List (String × GoValue) → Nat
  | [] => 0
  | (_, v) :: rest => max v.depth (GoValue.depthEntries rest)
end

mutual
/-- A dynamic value as the decoder gives it back: every number a float64. -/
def GoValue.canon : GoValue → GoValue
  | .int64 i => .float64 i
  | .slice xs => .slice (GoValue.canonAll xs)
  | .map kvs => .map (GoValue.canonEntries kvs)
  | v => v
/-- The function canon on the elements of a slice. -/
def GoValue.canonAll : List GoValue → List GoValue
  | [] => []
  | x :: rest => x.canon :: GoValue.canonAll rest
/-- The function canon on the values of a map. -/
def GoValue.canonEntries : List (String × GoValue) → List (String × GoValue)
  | [] => []
  | (k, v) :: rest => (k, v.canon) :: GoValue.canonEntries rest
end

/-- A slice or map with the empty one made nil. -/
def nilIfEmpty {α : Type} : Option (List α) → Option (List α)
  | some [] => none
  | x => x

/-- An Email with every empty slice and map made nil and every number of template_data
a float64. Two emails of the same canonical form differ only in that. -/
def Email.canon (e : Email) : Email :=
  { e with
    To := nilIfEmpty e.To
    CC := nilIfEmpty e.CC
    BCC := nilIfEmpty e.BCC
    TemplateData := nilIfEmpty (e.TemplateData.map GoValue.canonEntries)
    Attachments := nilIfEmpty e.Attachments
    Headers := nilIfEmpty e.Headers
    WebhookData := nilIfEmpty e.WebhookData }

/-- An Email that json.Marshal and json.Unmarshal carry without loss: its maps list
their entries in increasing key order, its int64 fields hold int64 values, and the
values of template_data are exact. -/
def Email.exact (e : Email) : Bool :=
  isInt64 e.SendTime
  && (match e.Tracking with
      | some t =>
        (match t.UnsubscribeGroupID with
         | some g => isInt64 g
         | none => true)
      | none => true)
  && keysAscending (e.Headers.getD [])
  && keysAscending (e.WebhookData.getD [])
  && keysAscending (e.TemplateData.getD [])
  && GoValue.entriesExact (e.TemplateData.getD [])

/-- The bytes of an ASCII text. -/
def asciiBytes (s : String) : Bytes := s.data.map (fun c => Fin.ofNat c.toNat)

/-- A sample key: "key". -/
def sampleSecret : Bytes := asciiBytes "key"

/-- A sample payload. -/
def samplePayload : Bytes := asciiBytes "The quick brown fox jumps over the lazy dog"

/-- The HMAC-SHA256 of the sample payload under the sample key, in lowercase hex. -/
def sampleSignature : Bytes :=
  asciiBytes "f7bc83f430538424b13298e6aa6fb143ef4d59a14946175997479dbc2d1a3cd8"

/-- Whether a URL holds an ASCII control character, the first thing net/url rejects. -/
def hasControlChar (url : String) : Bool := url.data.any (fun c => c.toNat < 0x20 || c.toNat == 0x7f)

/-- A sample environment: the URL parser rejects control characters, and the transport
fails with the error of a context that is done and otherwise gives the reply. -/
def sampleEnv (reply : Except GoError Response) : Env :=
  { parseURL := fun url =>
      if hasControlChar url then .error (.lib "net/url: invalid control character in URL")
      else .ok ()
    Do := fun _ req =>
      match req.ctx.Err with
      | some e => .error e
      | none => reply }

/-- A sample client. -/
def sampleClient : LanefulClient := NewLanefulClient "https://api.example.test" "secret-token"

/-- A context that is not done. -/
def liveContext : Context := { Err := none }

/-- A context that was cancelled. -/
def cancelledContext : Context := { Err := some (.lib "context canceled") }

/-- A sample email with only the sender set. -/
def sampleEmail : Email := { Email.zero with From := { Email := "sender@example.test", Name := "" } }

/-- A reply that rejects the token. -/
def unauthorizedReply : Response :=
  { StatusCode := 401, Body := "\x7b\"error\":\"invalid token\"\x7d" }

/-- A reply that accepts the request. -/
def okReply : Response := { StatusCode := 200, Body := "\x7b\"status\":\"ok\"\x7d" }

/-- The request body for the sample email alone. -/
def sampleBody : String :=
  "\x7b\"emails\":[\x7b\"from\":\x7b\"email\":\"sender@example.test\"\x7d\x7d]\x7d"

/-- A sample email in which tracking is set with everything switched off. -/
def trackingOffEmail : Email := { sampleEmail with Tracking := some TrackingSettings.zero }

theorem bxor_eq_zero (a b : Byte) : bxor a b = 0 ↔ a = b := by
  have hlt : a.val ^^^ b.val < 256 := Nat.xor_lt_two_pow (n := 8) a.isLt b.isLt
  constructor
  · intro h
    have h1 : (a.val ^^^ b.val) % 256 = 0 := congrArg Fin.val h
    rw [Nat.mod_eq_of_lt hlt] at h1
    exact Fin.ext (Nat.xor_eq_zero.mp h1)
  · rintro rfl
    apply Fin.ext
    simp [bxor]

theorem nat_or_eq_zero {a b : Nat} (h : a ||| b = 0) : a = 0 ∧ b = 0 := by
  constructor
  · apply Nat.eq_of_testBit_eq
    intro i
    have := congrArg (fun n => Nat.testBit n i) h
    simp only [Nat.testBit_or, Nat.zero_testBit, Bool.or_eq_false_iff] at this
    simp [this.1]
  · apply Nat.eq_of_testBit_eq
    intro i
    have := congrArg (fun n => Nat.testBit n i) h
    simp only [Nat.testBit_or, Nat.zero_testBit, Bool.or_eq_false_iff] at this
    simp [this.2]

theorem bor_eq_zero (a b : Byte) : bor a b = 0 ↔ a = 0 ∧ b = 0 := by
  have hlt : a.val ||| b.val < 256 := Nat.or_lt_two_pow (n := 8) a.isLt b.isLt
  constructor
  · intro h
    have h1 : (a.val ||| b.val) % 256 = 0 := congrArg Fin.val h
    rw [Nat.mod_eq_of_lt hlt] at h1
    have h2 := nat_or_eq_zero h1
    exact ⟨Fin.ext h2.1, Fin.ext h2.2⟩
  · rintro ⟨rfl, rfl⟩
    rfl

theorem xorFold_eq_zero (x : Bytes) : ∀ (v : Byte) (y : Bytes), x.length = y.length →
    (xorFold v x y = 0 ↔ v = 0 ∧ x = y) := by
  induction x with
  | nil =>
    intro v y hlen
    cases y with
    | nil => simp [xorFold]
    | cons b ys => simp at hlen
  | cons a xs ih =>
    intro v y hlen
    cases y with
    | nil => simp at hlen
    | cons b ys =>
      have hl : xs.length = ys.length := by simpa using hlen
      rw [xorFold, ih _ _ hl, bor_eq_zero, bxor_eq_zero]
      constructor
      · rintro ⟨⟨hv, hab⟩, hxy⟩
        exact ⟨hv, by rw [hab, hxy]⟩
      · rintro ⟨hv, hxy⟩
        injection hxy with h1 h2
        exact ⟨⟨hv, h1⟩, h2⟩

set_option maxRecDepth 100000 in
theorem constantTimeByteEq_zero : ∀ v : Byte, (constantTimeByteEq v 0 = 1 ↔ v = 0) := by
  decide

theorem constantTimeCompare_eq_one (x y : Bytes) : constantTimeCompare x y = 1 ↔ x = y := by
  unfold constantTimeCompare
  by_cases hlen : x.length = y.length
  · simp only [hlen, ne_eq, not_true_eq_false, if_false]
    rw [constantTimeByteEq_zero, xorFold_eq_zero x 0 y hlen]
    simp
  · simp only [ne_eq, hlen, not_false_eq_true, if_true]
    constructor
    · intro h; simp at h
    · intro h; exact absurd (congrArg List.length h) hlen

theorem hmacEqual_iff (x y : Bytes) : hmacEqual x y = true ↔ x = y := by
  simp [hmacEqual, constantTimeCompare_eq_one]

set_option maxRecDepth 100000 in
theorem hextable_lower : ∀ v : Byte,
    hextable.getD (v.val >>> 4) 0 = lowerHexDigit (v.val / 16) ∧
    hextable.getD (v.val &&& 0x0f) 0 = lowerHexDigit (v.val % 16) := by
  decide

theorem hexEncodeToString_eq_lowerHex (bs : Bytes) : hexEncodeToString bs = lowerHex bs := by
  induction bs with
  | nil => rfl
  | cons v rest ih =>
    simp only [hexEncodeToString, lowerHex, List.flatMap_cons, List.cons_append, List.nil_append]
    rw [(hextable_lower v).1, (hextable_lower v).2]
    simp only [lowerHex] at ih
    rw [ih]


theorem lowerHex_length (bs : Bytes) : (lowerHex bs).length = 2 * bs.length := by
  induction bs with
  | nil => rfl
  | cons v rest ih =>
    simp only [lowerHex, List.flatMap_cons, List.length_append, List.length_cons,
      List.length_nil] at ih ⊢
    omega

theorem rounds_length (kw : List (Nat × Nat)) : ∀ st : List Nat, st.length = 8 →
    (Sha256.rounds kw st).length = 8 := by
  induction kw with
  | nil =>
    intro st h
    unfold Sha256.rounds
    exact h
  | cons p rest ih =>
    intro st h
    match st, h with
    | [a, b, c, d, e, f, g, h8], _ =>
      obtain ⟨k, w⟩ := p
      simp only [Sha256.rounds]
      exact ih _ rfl

theorem block_length (st : List Nat) (chunk : Bytes) (h : st.length = 8) :
    (Sha256.block st chunk).length = 8 := by
  simp [Sha256.block, rounds_length _ st h, h]

theorem blocks_length (n : Nat) : ∀ (st : List Nat) (p : Bytes), st.length = 8 →
    (Sha256.blocks n st p).length = 8 := by
  induction n with
  | zero => intro st p h; exact h
  | succ n ih =>
    intro st p h
    simp only [Sha256.blocks]
    exact ih _ _ (block_length st _ h)

theorem beBytes_length (n x : Nat) : (Sha256.beBytes n x).length = n := by
  induction n generalizing x with
  | zero => rfl
  | succ n ih => simp [Sha256.beBytes, ih]

theorem flatten_beBytes_length (ws : List Nat) :
    ((ws.map (Sha256.beBytes 4)).flatten).length = 4 * ws.length := by
  induction ws with
  | nil => rfl
  | cons w rest ih =>
    simp only [List.map_cons, List.flatten_cons, List.length_append, beBytes_length,
      List.length_cons, ih]
    omega

/-- A SHA-256 digest has thirty-two bytes. -/
theorem sum256_length (msg : Bytes) : (Sha256.sum256 msg).length = 32 := by
  simp only [Sha256.sum256]
  rw [flatten_beBytes_length, blocks_length _ Sha256.initState _ (by decide)]

/-- An HMAC-SHA256 value has thirty-two bytes. -/
theorem hmacSha256_length (key msg : Bytes) : (hmacSha256 key msg).length = 32 := by
  simp only [hmacSha256]
  exact sum256_length _

/-- The verifier accepts exactly the lowercase hex digest. -/
theorem verify_iff (secret payload signature : Bytes) :
    VerifyWebhookSignature secret payload signature = true ↔
      signature = lowerHex (hmacSha256 secret payload) := by
  simp only [VerifyWebhookSignature, hmacEqual_iff, hexEncodeToString_eq_lowerHex]

theorem verify_eq_false_of_ne (secret payload signature : Bytes)
    (h : signature ≠ lowerHex (hmacSha256 secret payload)) :
    VerifyWebhookSignature secret payload signature = false := by
  cases hv : VerifyWebhookSignature secret payload signature with
  | false => rfl
  | true => exact absurd ((verify_iff secret payload signature).mp hv) h

theorem set_ne_of_get_ne (l : Bytes) (i : Nat) (b : Byte) (hi : i < l.length)
    (hb : l.get? i ≠ some b) : l.set i b ≠ l := by
  intro h
  apply hb
  have h1 : (l.set i b).get? i = some b := by
    simp [List.getElem?_set, hi]
  rw [h] at h1
  exact h1

/-- C1: VerifyWebhookSignature returns true if and only if the signature is exactly the
lowercase, separator-free hex encoding of HMAC-SHA256(key = secret, message = payload).
That encoding has 64 characters, so replacing one character of it by a different one, a
signature of another length, the empty signature, and the upper-case form of the digest
(whenever it differs from the lowercase form, that is whenever the digest has a letter)
are all rejected. The function is total: it returns a Bool on every input. -/
theorem VerifyWebhookSignature_spec (secret payload : Bytes) :
    (∀ signature : Bytes, VerifyWebhookSignature secret payload signature = true ↔
        signature = lowerHex (hmacSha256 secret payload)) ∧
    (lowerHex (hmacSha256 secret payload)).length = 64 ∧
    (∀ (i : Nat) (b : Byte), i < 64 →
        (lowerHex (hmacSha256 secret payload)).get? i ≠ some b →
        VerifyWebhookSignature secret payload
          ((lowerHex (hmacSha256 secret payload)).set i b) = false) ∧
    (∀ signature : Bytes, signature.length ≠ 64 →
        VerifyWebhookSignature secret payload signature = false) ∧
    VerifyWebhookSignature secret payload [] = false ∧
    ((lowerHex (hmacSha256 secret payload)).map upperByte ≠ lowerHex (hmacSha256 secret payload) →
        VerifyWebhookSignature secret payload
          ((lowerHex (hmacSha256 secret payload)).map upperByte) = false) := by
  have hlen : (lowerHex (hmacSha256 secret payload)).length = 64 := by
    rw [lowerHex_length, hmacSha256_length]
  refine ⟨verify_iff secret payload, hlen, ?_, ?_, ?_, ?_⟩
  · intro i b hi hb
    apply verify_eq_false_of_ne
    exact set_ne_of_get_ne _ i b (by rw [hlen]; exact hi) hb
  · intro signature hs
    apply verify_eq_false_of_ne
    intro h
    exact hs (by rw [h, hlen])
  · apply verify_eq_false_of_ne
    intro h
    have := congrArg List.length h
    rw [hlen] at this
    simp at this
  · intro h
    exact verify_eq_false_of_ne _ _ _ h

/-! ### The client -/

theorem headers_eq (tok : String) :
    headerSet "Authorization" tok (headerSet "Content-Type" "application/json" []) =
      [("Content-Type", "application/json"), ("Authorization", tok)] := by
  simp [headerSet]

theorem SendEmails_marshal_error (env : Env) (c : LanefulClient) (ctx : Option Context)
    (emails : GoSlice Email) (err : GoError)
    (h : jsonMarshal { Emails := emails } = .error err) :
    SendEmails env c ctx emails = ⟨[], .error (.wrapf "failed to marshal request: " err)⟩ := by
  simp only [SendEmails, h]

theorem SendEmails_nil_context (env : Env) (c : LanefulClient)
    (emails : GoSlice Email) (data : String)
    (h : jsonMarshal { Emails := emails } = .ok data) :
    SendEmails env c none emails =
      ⟨[], .error (.wrapf "failed to create request: " (.lib "net/http: nil Context"))⟩ := by
  simp only [SendEmails, h, newRequestWithContext]

theorem SendEmails_bad_url (env : Env) (c : LanefulClient) (cx : Context)
    (emails : GoSlice Email) (data : String) (err : GoError)
    (h : jsonMarshal { Emails := emails } = .ok data)
    (hu : env.parseURL (c.baseURL ++ "/v1/email/send") = .error err) :
    SendEmails env c (some cx) emails =
      ⟨[], .error (.wrapf "failed to create request: " err)⟩ := by
  simp only [SendEmails, h, newRequestWithContext, hu]

theorem SendEmails_transport_error (env : Env) (c : LanefulClient) (cx : Context)
    (emails : GoSlice Email) (data : String) (err : GoError)
    (h : jsonMarshal { Emails := emails } = .ok data)
    (hu : env.parseURL (c.baseURL ++ "/v1/email/send") = .ok ())
    (hd : env.Do c.httpClient (requestFor c cx data) = .error err) :
    SendEmails env c (some cx) emails =
      ⟨[.roundTrip (requestFor c cx data) (.error err)],
        .error (.wrapf "failed to send request: " err)⟩ := by
  simp only [requestFor] at hd
  simp only [SendEmails, h, newRequestWithContext, hu, headers_eq, requestFor, hd]

theorem SendEmails_reply (env : Env) (c : LanefulClient) (cx : Context)
    (emails : GoSlice Email) (data : String) (resp : Response)
    (h : jsonMarshal { Emails := emails } = .ok data)
    (hu : env.parseURL (c.baseURL ++ "/v1/email/send") = .ok ())
    (hd : env.Do c.httpClient (requestFor c cx data) = .ok resp) :
    (SendEmails env c (some cx) emails).events =
        [.roundTrip (requestFor c cx data) (.ok resp), .decodeBody resp.Body, .closeBody] ∧
    (SendEmails env c (some cx) emails).result =
      if resp.StatusCode ≠ StatusOK then
        match decodeApiErrorResponseBody resp.Body with
        | .error err => .error (.wrapf "failed to decode error response: " err)
        | .ok errResp => .error (.msgf ("API error: " ++ errResp.Error))
      else
        match decodeApiResponseBody resp.Body with
        | .error err => .error (.wrapf "failed to decode response: " err)
        | .ok apiResp => .ok apiResp := by
  simp only [requestFor] at hd
  simp only [SendEmails, h, newRequestWithContext, hu, headers_eq, requestFor, hd]
  by_cases hs : resp.StatusCode ≠ StatusOK
  · simp only [if_pos hs]
    cases decodeApiErrorResponseBody resp.Body <;> exact ⟨rfl, rfl⟩
  · simp only [if_neg hs]
    cases decodeApiResponseBody resp.Body <;> exact ⟨rfl, rfl⟩

/-- A transport call in the trace of SendEmails is the call of Do on the one request the
function builds. -/
theorem roundTrip_mem_events (env : Env) (c : LanefulClient) (ctx : Option Context)
    (emails : GoSlice Email) (req : Request) (reply : Except GoError Response)
    (h : Event.roundTrip req reply ∈ (SendEmails env c ctx emails).events) :
    ∃ data cx, jsonMarshal { Emails := emails } = .ok data ∧ ctx = some cx ∧
      env.parseURL (c.baseURL ++ "/v1/email/send") = .ok () ∧
      req = requestFor c cx data ∧ env.Do c.httpClient req = reply := by
  cases hm : jsonMarshal { Emails := emails } with
  | error err => rw [SendEmails_marshal_error env c ctx emails err hm] at h; simp at h
  | ok data =>
    cases ctx with
    | none => rw [SendEmails_nil_context env c emails data hm] at h; simp at h
    | some cx =>
      cases hu : env.parseURL (c.baseURL ++ "/v1/email/send") with
      | error err => rw [SendEmails_bad_url env c cx emails data err hm hu] at h; simp at h
      | ok u =>
        cases u
        refine ⟨data, cx, rfl, rfl, rfl, ?_⟩
        cases hd : env.Do c.httpClient (requestFor c cx data) with
        | error err =>
          rw [SendEmails_transport_error env c cx emails data err hm hu hd] at h
          simp only [List.mem_singleton, Event.roundTrip.injEq] at h
          obtain ⟨h1, h2⟩ := h
          subst h1
          exact ⟨rfl, by rw [hd, h2]⟩
        | ok resp =>
          rw [(SendEmails_reply env c cx emails data resp hm hu hd).1] at h
          simp only [List.mem_cons, Event.roundTrip.injEq, List.mem_singleton, reduceCtorEq,
            or_false, List.not_mem_nil] at h
          obtain ⟨h1, h2⟩ := h
          subst h1
          exact ⟨rfl, by rw [hd, h2]⟩

/-- C2: when the transport replies with a status other than 200, SendEmails returns no
response and an error: the API error whose message is "API error: " followed by the
message of the decoded ApiErrorResponse, or, when the body does not decode, the error
"failed to decode error response" wrapping the decoder's error. -/
theorem SendEmails_non_200 (env : Env) (c : LanefulClient) (ctx : Option Context)
    (emails : GoSlice Email) (req : Request) (resp : Response)
    (hreply : Event.roundTrip req (.ok resp) ∈ (SendEmails env c ctx emails).events)
    (hstatus : resp.StatusCode ≠ 200) :
    (∀ r : ApiResponse, (SendEmails env c ctx emails).result ≠ .ok r) ∧
    (∀ m : String, decodeApiErrorResponseBody resp.Body = .ok { Error := m } →
      (SendEmails env c ctx emails).result = .error (.msgf ("API error: " ++ m)) ∧
      (GoError.msgf ("API error: " ++ m)).Error = "API error: " ++ m) ∧
    (∀ cause : GoError, decodeApiErrorResponseBody resp.Body = .error cause →
      (SendEmails env c ctx emails).result =
        .error (.wrapf "failed to decode error response: " cause) ∧
      (GoError.wrapf "failed to decode error response: " cause).Error =
        "failed to decode error response: " ++ cause.Error) := by
  obtain ⟨data, cx, hm, rfl, hu, rfl, hd⟩ := roundTrip_mem_events env c ctx emails req _ hreply
  have hres := (SendEmails_reply env c cx emails data resp hm hu hd).2
  have hs : resp.StatusCode ≠ StatusOK := hstatus
  rw [if_pos hs] at hres
  refine ⟨?_, ?_, ?_⟩
  · intro r hr
    rw [hr] at hres
    split at hres <;> simp at hres
  · intro m hdec
    rw [hdec] at hres
    exact ⟨hres, rfl⟩
  · intro cause hdec
    rw [hdec] at hres
    exact ⟨hres, rfl⟩

/-- C3: when the transport replies with status 200, SendEmails succeeds if and only if
the body decodes as ApiResponse, it then returns exactly the decoded value, and when the
body does not decode it returns the error "failed to decode response" wrapping the
decoder's error. -/
theorem SendEmails_200 (env : Env) (c : LanefulClient) (ctx : Option Context)
    (emails : GoSlice Email) (req : Request) (resp : Response)
    (hreply : Event.roundTrip req (.ok resp) ∈ (SendEmails env c ctx emails).events)
    (hstatus : resp.StatusCode = 200) :
    (∀ r : ApiResponse, (SendEmails env c ctx emails).result = .ok r ↔
      decodeApiResponseBody resp.Body = .ok r) ∧
    (∀ cause : GoError, decodeApiResponseBody resp.Body = .error cause →
      (SendEmails env c ctx emails).result =
        .error (.wrapf "failed to decode response: " cause)) := by
  obtain ⟨data, cx, hm, rfl, hu, rfl, hd⟩ := roundTrip_mem_events env c ctx emails req _ hreply
  have hres := (SendEmails_reply env c cx emails data resp hm hu hd).2
  have hs : ¬ resp.StatusCode ≠ StatusOK := by
    intro h
    exact h hstatus
  rw [if_neg hs] at hres
  refine ⟨?_, ?_⟩
  · intro r
    rw [hres]
    cases decodeApiResponseBody resp.Body with
    | error e => simp
    | ok r2 => simp
  · intro cause hdec
    rw [hdec] at hres
    exact hres

/-- C4: SendEmail is SendEmails on the one-element list: the same request goes to the
transport and the same response or error comes back. -/
theorem SendEmail_eq_SendEmails (env : Env) (c : LanefulClient) (ctx : Option Context)
    (email : Email) :
    SendEmail env c ctx email = SendEmails env c ctx (some [email]) ∧
    (SendEmail env c ctx email).requests = (SendEmails env c ctx (some [email])).requests ∧
    (SendEmail env c ctx email).result = (SendEmails env c ctx (some [email])).result :=
  ⟨rfl, rfl, rfl⟩

/-- C6: when the transport fails, SendEmails returns no response and the error "failed
to send request" wrapping the transport's error; the failed call is the only thing it
did: no body was decoded and no second request was made. -/
theorem SendEmails_transport_failure (env : Env) (c : LanefulClient) (ctx : Option Context)
    (emails : GoSlice Email) (req : Request) (cause : GoError)
    (hfail : Event.roundTrip req (.error cause) ∈ (SendEmails env c ctx emails).events) :
    (SendEmails env c ctx emails).result = .error (.wrapf "failed to send request: " cause) ∧
    (GoError.wrapf "failed to send request: " cause).Unwrap = some cause ∧
    (GoError.wrapf "failed to send request: " cause).Error =
      "failed to send request: " ++ cause.Error ∧
    (SendEmails env c ctx emails).events = [.roundTrip req (.error cause)] ∧
    (SendEmails env c ctx emails).requests = [req] ∧
    (SendEmails env c ctx emails).bodiesRead = [] := by
  obtain ⟨data, cx, hm, rfl, hu, rfl, hd⟩ := roundTrip_mem_events env c ctx emails req _ hfail
  rw [SendEmails_transport_error env c cx emails data cause hm hu hd]
  exact ⟨rfl, rfl, rfl, rfl, rfl, rfl⟩



/-! ### Struct tags -/

theorem keys_field_append (name : String) (omitempty isEmpty : Bool) (v : JSON)
    (rest : List (String × JSON)) :
    (field name omitempty isEmpty v ++ rest).map (fun kv => kv.1) =
      (if omitempty && isEmpty then [] else [name]) ++ rest.map (fun kv => kv.1) := by
  unfold field
  split <;> simp

theorem keys_field (name : String) (omitempty isEmpty : Bool) (v : JSON) :
    (field name omitempty isEmpty v).map (fun kv => kv.1) =
      (if omitempty && isEmpty then [] else [name]) := by
  unfold field
  split <;> simp

theorem marshalEmail_keys (e : Email) (j : JSON) (h : marshalEmail e = .ok j) :
    j.keys =
      ["from"]
      ++ (if isEmptyList e.To then [] else ["to"])
      ++ (if isEmptyList e.CC then [] else ["cc"])
      ++ (if isEmptyList e.BCC then [] else ["bcc"])
      ++ (if e.Subject.isEmpty then [] else ["subject"])
      ++ (if e.TextContent.isEmpty then [] else ["text_content"])
      ++ (if e.HTMLContent.isEmpty then [] else ["html_content"])
      ++ (if e.TemplateID.isEmpty then [] else ["template_id"])
      ++ (if isEmptyList e.TemplateData then [] else ["template_data"])
      ++ (if isEmptyList e.Attachments then [] else ["attachments"])
      ++ (if isEmptyList e.Headers then [] else ["headers"])
      ++ (if e.ReplyTo.isNone then [] else ["reply_to"])
      ++ (if e.SendTime == 0 then [] else ["send_time"])
      ++ (if isEmptyList e.WebhookData then [] else ["webhook_data"])
      ++ (if e.Tag.isEmpty then [] else ["tag"])
      ++ (if e.Tracking.isNone then [] else ["tracking"]) := by
  unfold marshalEmail at h
  cases htd : marshalValueMap e.TemplateData with
  | error err => rw [htd] at h; simp at h
  | ok td =>
    rw [htd] at h
    simp only [Except.ok.injEq] at h
    subst h
    simp only [JSON.keys, List.map_append, keys_field, Bool.true_and, Bool.false_and,
      Bool.false_eq_true, if_false]



/-! ### Numbers -/

theorem digit_char (d : Nat) (h : d < 10) :
    isDigit (Char.ofNat (48 + d)) = true ∧ (Char.ofNat (48 + d)).toNat - 48 = d ∧
      Char.ofNat (48 + d) ≠ '-' := by
  interval_cases d <;> decide

theorem natDigits_foldl (fuel : Nat) : ∀ n : Nat, n < fuel →
    (natDigits fuel n).foldl (fun acc c =>
      match acc with
      | some m => if isDigit c then some (m * 10 + (c.toNat - 48)) else none
      | none => none) (some 0) = some n := by
  induction fuel with
  | zero => intro n h; omega
  | succ fuel ih =>
    intro n h
    unfold natDigits
    by_cases h10 : n < 10
    · simp only [h10, if_true, List.foldl_cons, List.foldl_nil]
      rw [(digit_char n h10).1, (digit_char n h10).2.1]
      simp
    · simp only [h10, if_false, List.foldl_append, List.foldl_cons, List.foldl_nil]
      rw [ih (n / 10) (by omega)]
      have hd := digit_char (n % 10) (Nat.mod_lt _ (by decide))
      simp only [hd.1, hd.2.1, if_true]
      congr 1
      omega

theorem natDigits_ne_nil (fuel n : Nat) : natDigits (fuel + 1) n ≠ [] := by
  unfold natDigits
  split <;> simp

theorem natDigits_head (fuel : Nat) : ∀ n : Nat, ∀ c rest, natDigits fuel n = c :: rest →
    c ≠ '-' := by
  induction fuel with
  | zero => intro n c rest h; simp [natDigits] at h
  | succ fuel ih =>
    intro n c rest h
    unfold natDigits at h
    by_cases h10 : n < 10
    · simp only [h10, if_true, List.cons.injEq] at h
      rw [← h.1]
      exact (digit_char n h10).2.2
    · simp only [h10, if_false] at h
      cases hd : natDigits fuel (n / 10) with
      | nil =>
        rw [hd] at h
        simp only [List.nil_append, List.cons.injEq] at h
        rw [← h.1]
        exact (digit_char (n % 10) (Nat.mod_lt _ (by decide))).2.2
      | cons c2 r2 =>
        rw [hd] at h
        simp only [List.cons_append, List.cons.injEq] at h
        rw [← h.1]
        exact ih _ _ _ hd

theorem parseDigits_natDigits (fuel n : Nat) (h : n < fuel) :
    parseDigits (natDigits fuel n) = some n := by
  cases fuel with
  | zero => omega
  | succ fuel =>
    cases hd : natDigits (fuel + 1) n with
    | nil => exact absurd hd (natDigits_ne_nil fuel n)
    | cons c rest =>
      have hf := natDigits_foldl _ _ h
      rw [hd] at hf
      simp only [parseDigits]
      exact hf

/-- Reading the decimal text of an integer gives the integer back. -/
theorem parseIntLit_formatInt (i : Int) : parseIntLit (formatInt i) = some i := by
  cases i with
  | ofNat n =>
    simp only [formatInt]
    cases hd : natDigits (n + 1) n with
    | nil => exact absurd hd (natDigits_ne_nil n n)
    | cons c rest =>
      have hc := natDigits_head _ _ _ _ hd
      simp only [parseIntLit, hc, if_false]
      rw [← hd, parseDigits_natDigits _ _ (by omega)]
      rfl
  | negSucc n =>
    simp only [formatInt, parseIntLit, if_true]
    rw [parseDigits_natDigits _ _ (by omega)]
    rfl

theorem ltChars_irrefl (a : List Char) : ltChars a a = false := by
  induction a with
  | nil => rfl
  | cons c cs ih => simp [ltChars, ih]

theorem ltChars_asymm : ∀ a b : List Char, ltChars a b = true → ltChars b a = false := by
  intro a
  induction a with
  | nil =>
    intro b h
    cases b with
    | nil => rfl
    | cons d ds => rfl
  | cons c cs ih =>
    intro b h
    cases b with
    | nil => simp [ltChars] at h
    | cons d ds =>
      simp only [ltChars] at h ⊢
      by_cases h1 : c.toNat < d.toNat
      · have h2 : ¬ d.toNat < c.toNat := by omega
        simp [h1, h2]
      · by_cases h2 : d.toNat < c.toNat
        · simp [h1, h2] at h
        · simp only [h1, h2, if_false] at h ⊢
          exact ih ds h

theorem ltChars_trans : ∀ a b c : List Char, ltChars a b = true → ltChars b c = true →
    ltChars a c = true := by
  intro a
  induction a with
  | nil =>
    intro b c hab hbc
    cases c with
    | nil =>
      cases b with
      | nil => simp [ltChars] at hab
      | cons y ys => simp [ltChars] at hbc
    | cons z zs => rfl
  | cons x xs ih =>
    intro b c hab hbc
    cases b with
    | nil => simp [ltChars] at hab
    | cons y ys =>
      cases c with
      | nil => simp [ltChars] at hbc
      | cons z zs =>
        simp only [ltChars] at hab hbc ⊢
        by_cases h1 : x.toNat < y.toNat
        · by_cases h3 : y.toNat < z.toNat
          · have : x.toNat < z.toNat := by omega
            simp [this]
          · by_cases h4 : z.toNat < y.toNat
            · simp [h3, h4] at hbc
            · have : x.toNat < z.toNat := by omega
              simp [this]
        · by_cases h2 : y.toNat < x.toNat
          · simp [h1, h2] at hab
          · simp only [h1, h2, if_false] at hab
            by_cases h3 : y.toNat < z.toNat
            · have : x.toNat < z.toNat := by omega
              simp [this]
            · by_cases h4 : z.toNat < y.toNat
              · simp [h3, h4] at hbc
              · simp only [h3, h4, if_false] at hbc
                have h5 : ¬ x.toNat < z.toNat := by omega
                have h6 : ¬ z.toNat < x.toNat := by omega
                simp only [h5, h6, if_false]
                exact ih ys zs hab hbc

theorem keyLt_irrefl (a : String) : keyLt a a = false := ltChars_irrefl _

theorem keyLt_asymm (a b : String) (h : keyLt a b = true) : keyLt b a = false :=
  ltChars_asymm _ _ h

theorem keyLt_trans (a b c : String) (h1 : keyLt a b = true) (h2 : keyLt b c = true) :
    keyLt a c = true := ltChars_trans _ _ _ h1 h2

theorem keysAscending_tail {β : Type} (a : String × β) (l : List (String × β))
    (h : keysAscending (a :: l) = true) : keysAscending l = true := by
  cases l with
  | nil => rfl
  | cons b rest =>
    simp only [keysAscending, Bool.and_eq_true] at h
    exact h.2

theorem keysAscending_head_lt {β : Type} (a : String × β) : ∀ l : List (String × β),
    keysAscending (a :: l) = true → ∀ x ∈ l, keyLt a.1 x.1 = true := by
  intro l
  induction l generalizing a with
  | nil => intro _ x hx; simp at hx
  | cons b rest ih =>
    intro h x hx
    simp only [keysAscending, Bool.and_eq_true] at h
    rcases List.mem_cons.mp hx with rfl | hx
    · exact h.1
    · exact keyLt_trans _ _ _ h.1 (ih b h.2 x hx)

/-- A list of entries in increasing key order is already in the encoder's order. -/
theorem sortByKey_of_ascending {β : Type} : ∀ l : List (String × β),
    keysAscending l = true → sortByKey l = l := by
  intro l
  induction l with
  | nil => intro _; rfl
  | cons a rest ih =>
    intro h
    simp only [sortByKey]
    rw [ih (keysAscending_tail a rest h)]
    cases rest with
    | nil => rfl
    | cons b r =>
      simp only [keysAscending, Bool.and_eq_true] at h
      simp only [insertByKey, h.1, if_true]

/-- Storing a key above all the keys of a map puts the entry at its end. -/
theorem mapSet_above {β : Type} (k : String) (v : β) : ∀ m : List (String × β),
    (∀ x ∈ m, keyLt x.1 k = true) → mapSet k v m = m ++ [(k, v)] := by
  intro m
  induction m with
  | nil => intro _; rfl
  | cons x rest ih =>
    intro h
    have hx := h x (List.mem_cons_self _ _)
    have h1 : keyLt k x.1 = false := keyLt_asymm _ _ hx
    have h2 : (x.1 == k) = false := by
      apply beq_false_of_ne
      intro he
      rw [he, keyLt_irrefl] at hx
      exact Bool.false_ne_true hx
    simp only [mapSet, h1, h2, Bool.false_eq_true, if_false, List.cons_append]
    rw [ih (fun y hy => h y (List.mem_cons_of_mem _ hy))]

theorem keysAscending_map {β γ : Type} (f : β → γ) : ∀ l : List (String × β),
    keysAscending (l.map (fun kv => (kv.1, f kv.2))) = keysAscending l := by
  intro l
  induction l with
  | nil => rfl
  | cons a rest ih =>
    cases rest with
    | nil => rfl
    | cons b r =>
      simp only [List.map_cons, keysAscending] at ih ⊢
      rw [ih]

theorem decodeNumber_formatInt (i : Int) (hr : roundFloat64 i = i)
    (hb : -(2 ^ 1024) < i ∧ i < 2 ^ 1024) :
    decodeNumber (String.mk (formatInt i)) = .ok (.float64 i) := by
  have hz : ¬ (i = 0 ∧ (formatInt i).head? = some '-') := by
    rintro ⟨h0, hh⟩
    subst h0
    exact absurd hh (by decide)
  simp only [decodeNumber, parseIntLit_formatInt, hz, hr, hb, and_self, if_true, if_false]

theorem int64_bounds (i : Int) (h : isInt64 i = true) : -(2 ^ 1024) < i ∧ i < 2 ^ 1024 := by
  simp only [isInt64, decide_eq_true_eq] at h
  have h1 : (9223372036854775807 : Int) < 2 ^ 1024 := by norm_num
  constructor <;> omega

/-- Entries that are in key order come back, one by one, into a map that holds only
smaller keys. -/
theorem decodeEntries_of_forall₂ : ∀ (kvs : List (String × GoValue))
    (ms : List (String × JSON)) (acc : List (String × GoValue)),
    List.Forall₂ (fun kv m => m.1 = kv.1 ∧ decodeValue m.2 = .ok kv.2.canon) kvs ms →
    keysAscending kvs = true → (∀ x ∈ acc, ∀ y ∈ kvs, keyLt x.1 y.1 = true) →
    decodeEntries ms acc = .ok (acc ++ GoValue.canonEntries kvs) := by
  intro kvs
  induction kvs with
  | nil =>
    intro ms acc h _ _
    cases h
    simp [decodeEntries, GoValue.canonEntries]
  | cons kv rest ih =>
    intro ms acc h hasc hacc
    cases h with
    | cons hhead htail =>
      rename_i m ms2
      obtain ⟨k, v⟩ := kv
      obtain ⟨mk, mj⟩ := m
      simp only at hhead
      obtain ⟨hk, hv⟩ := hhead
      subst hk
      simp only [decodeEntries, hv, GoValue.canonEntries]
      rw [mapSet_above mk v.canon acc (fun x hx => hacc x hx (mk, v) (List.mem_cons_self _ _))]
      rw [ih ms2 (acc ++ [(mk, v.canon)]) htail (keysAscending_tail _ _ hasc)]
      · simp
      · intro x hx y hy
        rcases List.mem_append.mp hx with hx | hx
        · exact hacc x hx y (List.mem_cons_of_mem _ hy)
        · simp only [List.mem_singleton] at hx
          subst hx
          exact keysAscending_head_lt (mk, v) rest hasc y hy

theorem keysAscending_of_forall₂ : ∀ (kvs : List (String × GoValue))
    (ms : List (String × JSON)),
    List.Forall₂ (fun kv m => m.1 = kv.1 ∧ decodeValue m.2 = .ok kv.2.canon) kvs ms →
    keysAscending ms = keysAscending kvs := by
  intro kvs
  induction kvs with
  | nil => intro ms h; cases h; rfl
  | cons kv rest ih =>
    intro ms h
    cases h with
    | cons hhead htail =>
      rename_i m ms2
      cases htail with
      | nil => rfl
      | cons hhead2 htail2 =>
        rename_i kv2 m2 rest2 ms3
        have := ih _ (List.Forall₂.cons hhead2 htail2)
        simp only [keysAscending, hhead.1, hhead2.1, this]

mutual
theorem marshalValue_decode : ∀ v : GoValue, v.exact = true →
    ∃ j, marshalValue v = .ok j ∧ decodeValue j = .ok v.canon
  | .nil, _ => ⟨.null, rfl, rfl⟩
  | .bool b, _ => ⟨.bool b, rfl, rfl⟩
  | .string s, _ => ⟨.str s, rfl, rfl⟩
  | .int64 i, h => by
    simp only [GoValue.exact, Bool.and_eq_true, decide_eq_true_eq] at h
    exact ⟨marshalInt64 i, rfl, by
      simp only [marshalInt64, decodeValue, GoValue.canon]
      exact decodeNumber_formatInt i h.2 (int64_bounds i h.1)⟩
  | .float64 v, h => by
    simp only [GoValue.exact, Bool.and_eq_true, decide_eq_true_eq] at h
    refine ⟨.num (String.mk (formatInt v)), ?_, ?_⟩
    · simp only [marshalValue, h.1, and_self, if_true]
    · simp only [decodeValue, GoValue.canon]
      apply decodeNumber_formatInt v h.2
      have h1 : (9007199254740992 : Int) < 2 ^ 1024 := by norm_num
      constructor <;> omega
  | .slice xs, h => by
    simp only [GoValue.exact] at h
    obtain ⟨js, h1, h2⟩ := marshalValues_decode xs h
    exact ⟨.arr js, by simp only [marshalValue, h1], by simp only [decodeValue, h2, GoValue.canon]⟩
  | .map kvs, h => by
    simp only [GoValue.exact, Bool.and_eq_true] at h
    obtain ⟨ms, h1, h2⟩ := marshalEntries_decode kvs h.2
    refine ⟨.obj (sortByKey ms), by simp only [marshalValue, h1], ?_⟩
    have hasc : keysAscending ms = true := by
      rw [keysAscending_of_forall₂ kvs ms h2]; exact h.1
    rw [sortByKey_of_ascending ms hasc]
    have := decodeEntries_of_forall₂ kvs ms [] h2 h.1 (by intro x hx; simp at hx)
    simp only [decodeValue, this, List.nil_append, GoValue.canon]
  | .unsupported, h => by simp [GoValue.exact] at h
theorem marshalValues_decode : ∀ xs : List GoValue, GoValue.allExact xs = true →
    ∃ js, marshalValues xs = .ok js ∧ decodeValues js = .ok (GoValue.canonAll xs)
  | [], _ => ⟨[], rfl, rfl⟩
  | x :: rest, h => by
    simp only [GoValue.allExact, Bool.and_eq_true] at h
    obtain ⟨j, h1, h2⟩ := marshalValue_decode x h.1
    obtain ⟨js, h3, h4⟩ := marshalValues_decode rest h.2
    exact ⟨j :: js, by simp only [marshalValues, h1, h3],
      by simp only [decodeValues, h2, h4, GoValue.canonAll]⟩
theorem marshalEntries_decode : ∀ kvs : List (String × GoValue),
    GoValue.entriesExact kvs = true →
    ∃ ms, marshalEntries kvs = .ok ms ∧
      List.Forall₂ (fun kv m => m.1 = kv.1 ∧ decodeValue m.2 = .ok kv.2.canon) kvs ms
  | [], _ => ⟨[], rfl, List.Forall₂.nil⟩
  | (k, v) :: rest, h => by
    simp only [GoValue.entriesExact, Bool.and_eq_true] at h
    obtain ⟨j, h1, h2⟩ := marshalValue_decode v h.1
    obtain ⟨ms, h3, h4⟩ := marshalEntries_decode rest h.2
    exact ⟨(k, j) :: ms, by simp only [marshalEntries, h1, h3],
      List.Forall₂.cons ⟨rfl, h2⟩ h4⟩
end

set_option maxRecDepth 4000 in
theorem hexVal_hexDigit : ∀ n : Fin 16, hexVal (hexDigit n.val) = some n.val := by decide

theorem getu4_low (n : Nat) (h : n < 256) :
    getu4 '0' '0' (hexDigit (n / 16)) (hexDigit (n % 16)) = some n := by
  have h1 := hexVal_hexDigit ⟨n / 16, by omega⟩
  have h2 := hexVal_hexDigit ⟨n % 16, by omega⟩
  simp only at h1 h2
  have h0 : hexVal '0' = some 0 := by decide
  simp only [getu4, h0, h1, h2, Option.some.injEq]
  omega

theorem char_eq_of_toNat (c : Char) (n : Nat) (h : c.toNat = n) : c = Char.ofNat n := by
  rw [← h]
  exact (Char.ofNat_toNat c).symm

theorem runeOf_toNat (c : Char) : runeOf c.toNat = c := by
  unfold runeOf
  have hv := c.valid
  have h1 : ¬ (0xD800 ≤ c.toNat ∧ c.toNat < 0xE000) := by
    intro h
    rcases hv with hv | hv
    · have : c.toNat < 0xD800 := hv
      omega
    · have : 0xDFFF < c.toNat := hv.1
      omega
  rw [if_neg h1]
  exact Char.ofNat_toNat c

/-- One escaped character read back. -/
theorem scanString_escapeChar (c : Char) (fuel : Nat) (tail s r : List Char)
    (ht : scanString fuel tail = .ok (s, r)) :
    scanString (fuel + 1) (escapeChar c ++ tail) = .ok (c :: s, r) := by
  unfold escapeChar
  split
  · rename_i h
    rcases h with rfl | rfl
    · simp [scanString, unescape, ht]
    · simp [scanString, unescape, ht]
  split
  · rename_i h; subst h; simp [scanString, unescape, ht]
  split
  · rename_i h; subst h; simp [scanString, unescape, ht]
  split
  · rename_i h; subst h; simp [scanString, unescape, ht]
  split
  · rename_i h; subst h; simp [scanString, unescape, ht]
  split
  · rename_i h; subst h; simp [scanString, unescape, ht]
  split
  · rename_i h0 h1 h2 h3 h4 h5 h
    have hlt : c.toNat < 256 := by
      rcases h with h | rfl | rfl | rfl
      · omega
      · decide
      · decide
      · decide
    have hs : ¬ (0xD800 ≤ c.toNat ∧ c.toNat < 0xDC00) := by omega
    simp [scanString, getu4_low c.toNat hlt, hs, runeOf_toNat, ht]
  split
  · rename_i h
    have hc := char_eq_of_toNat c _ h
    subst hc
    simp [scanString, getu4, hexVal, isDigit, runeOf, ht]
  split
  · rename_i h
    have hc := char_eq_of_toNat c _ h
    subst hc
    simp [scanString, getu4, hexVal, isDigit, runeOf, ht]
  · rename_i h0 h1 h2 h3 h4 h5 h6 h7 h8
    have hq : c ≠ '"' := fun h => h0 (Or.inr h)
    have hb : c ≠ '\\' := fun h => h0 (Or.inl h)
    have hl : ¬ c.toNat < 0x20 := fun h => h6 (Or.inl h)
    simp [scanString, hq, hb, hl, ht]

/-- A quoted string read back, after its opening quote. -/
theorem scanString_escaped (s : List Char) : ∀ (fuel : Nat) (rest : List Char),
    s.length < fuel →
    scanString fuel (s.flatMap escapeChar ++ '"' :: rest) = .ok (s, rest) := by
  induction s with
  | nil =>
    intro fuel rest h
    cases fuel with
    | zero => omega
    | succ f => simp [scanString]
  | cons c cs ih =>
    intro fuel rest h
    cases fuel with
    | zero => omega
    | succ f =>
      simp only [List.flatMap_cons, List.append_assoc]
      exact scanString_escapeChar c f _ cs rest (ih f rest (by simpa using h))

theorem escapeChar_length (c : Char) : 1 ≤ (escapeChar c).length := by
  unfold escapeChar
  repeat' split
  all_goals simp

theorem flatMap_escapeChar_length (s : List Char) :
    s.length ≤ (s.flatMap escapeChar).length := by
  induction s with
  | nil => simp
  | cons c cs ih =>
    simp only [List.flatMap_cons, List.length_append, List.length_cons]
    have := escapeChar_length c
    omega


theorem digit_char2 (d : Nat) (h : d < 10) :
    isDigit (Char.ofNat (48 + d)) = true ∧ (d ≠ 0 → Char.ofNat (48 + d) ≠ '0') := by
  interval_cases d <;> decide

theorem natDigits_all_digits (fuel : Nat) : ∀ n : Nat, ∀ c ∈ natDigits fuel n,
    isDigit c = true := by
  induction fuel with
  | zero => intro n c h; simp [natDigits] at h
  | succ fuel ih =>
    intro n c h
    unfold natDigits at h
    by_cases h10 : n < 10
    · simp only [h10, if_true, List.mem_singleton] at h
      rw [h]
      exact (digit_char2 n h10).1
    · simp only [h10, if_false, List.mem_append, List.mem_singleton] at h
      rcases h with h | h
      · exact ih _ c h
      · rw [h]
        exact (digit_char2 (n % 10) (Nat.mod_lt _ (by decide))).1

theorem natDigits_head_ne_zero (fuel : Nat) : ∀ n : Nat, 0 < n → n < fuel →
    ∀ c tl, natDigits fuel n = c :: tl → c ≠ '0' := by
  induction fuel with
  | zero => intro n _ h; omega
  | succ fuel ih =>
    intro n hpos hlt c tl h
    unfold natDigits at h
    by_cases h10 : n < 10
    · simp only [h10, if_true, List.cons.injEq] at h
      rw [← h.1]
      exact (digit_char2 n h10).2 (by omega)
    · simp only [h10, if_false] at h
      cases hd : natDigits fuel (n / 10) with
      | nil =>
        cases fuel with
        | zero => omega
        | succ f => exact absurd hd (by unfold natDigits; split <;> simp)
      | cons c2 tl2 =>
        rw [hd] at h
        simp only [List.cons_append, List.cons.injEq] at h
        rw [← h.1]
        exact ih (n / 10) (by omega) (by omega) c2 tl2 hd

theorem not_digit_of_terminated (rest : List Char) (h : Terminated rest) :
    ∀ c tl, rest = c :: tl → isDigit c = false ∧ c ≠ '.' ∧ c ≠ 'e' ∧ c ≠ 'E' := by
  intro c tl hr
  rcases h c tl hr with rfl | rfl | rfl <;> decide

theorem spanDigits_append (ds : List Char) (hd : ∀ c ∈ ds, isDigit c = true)
    (rest : List Char) (hr : Terminated rest) : spanDigits (ds ++ rest) = (ds, rest) := by
  induction ds with
  | nil =>
    cases rest with
    | nil => rfl
    | cons c tl =>
      have := (not_digit_of_terminated _ hr c tl rfl).1
      simp [spanDigits, this]
  | cons d ds ih =>
    have h1 := hd d (List.mem_cons_self _ _)
    simp [spanDigits, h1, ih (fun c hc => hd c (List.mem_cons_of_mem _ hc))]

theorem scanFraction_terminated (rest : List Char) (hr : Terminated rest) :
    scanFraction rest = .ok ([], rest) := by
  cases rest with
  | nil => rfl
  | cons c tl =>
    have h := (not_digit_of_terminated _ hr c tl rfl).2.1
    unfold scanFraction
    split
    · rename_i heq
      simp only [List.cons.injEq] at heq
      exact absurd heq.1 h
    · rfl

theorem scanExponent_terminated (rest : List Char) (hr : Terminated rest) :
    scanExponent rest = .ok ([], rest) := by
  cases rest with
  | nil => rfl
  | cons c tl =>
    have h := (not_digit_of_terminated _ hr c tl rfl).2.2
    simp [scanExponent, h.1, h.2]

theorem scanIntPart_natDigits (n : Nat) (rest : List Char) (hr : Terminated rest) :
    scanIntPart (natDigits (n + 1) n ++ rest) = .ok (natDigits (n + 1) n, rest) := by
  cases n with
  | zero => simp [natDigits, scanIntPart]
  | succ m =>
    cases hd : natDigits (m + 1 + 1) (m + 1) with
    | nil => exact absurd hd (by unfold natDigits; split <;> simp)
    | cons c tl =>
      have hc := natDigits_head_ne_zero _ _ (by omega) (by omega) c tl hd
      have hall := natDigits_all_digits (m + 1 + 1) (m + 1)
      rw [hd] at hall
      have hcd := hall c (List.mem_cons_self _ _)
      simp only [List.cons_append, scanIntPart, hc, if_false, hcd, if_true]
      rw [spanDigits_append tl (fun x hx => hall x (List.mem_cons_of_mem _ hx)) rest hr]

theorem scanUnsigned_natDigits (n : Nat) (rest : List Char) (hr : Terminated rest) :
    scanUnsigned (natDigits (n + 1) n ++ rest) = .ok (natDigits (n + 1) n, rest) := by
  simp only [scanUnsigned, scanIntPart_natDigits n rest hr, scanFraction_terminated rest hr,
    scanExponent_terminated rest hr, List.append_nil]

/-- The decimal text of an integer read back as a number literal. -/
theorem scanNumber_formatInt (i : Int) (rest : List Char) (hr : Terminated rest) :
    scanNumber (formatInt i ++ rest) = .ok (formatInt i, rest) := by
  cases i with
  | ofNat n =>
    have hu := scanUnsigned_natDigits n rest hr
    simp only [formatInt]
    cases hd : natDigits (n + 1) n with
    | nil => exact absurd hd (by unfold natDigits; split <;> simp)
    | cons c tl =>
      have hall := natDigits_all_digits (n + 1) n
      rw [hd] at hall hu
      have hcd := hall c (List.mem_cons_self _ _)
      have hminus : c ≠ '-' := by
        intro h
        rw [h] at hcd
        exact absurd hcd (by decide)
      simp only [List.cons_append] at hu
      simp only [List.cons_append, scanNumber, hminus, if_false, hu]
  | negSucc n =>
    have hu := scanUnsigned_natDigits (n + 1) rest hr
    simp only [formatInt, List.cons_append, scanNumber, if_true, hu]



theorem skipSpace_cons (c : Char) (tl : List Char) (h : isSpace c = false) :
    skipSpace (c :: tl) = c :: tl := by
  simp [skipSpace, h]

theorem quote_append (s : String) (rest : List Char) :
    quote s ++ rest = '"' :: (s.data.flatMap escapeChar ++ '"' :: rest) := by
  simp [quote]

/-- A quoted string read back with the fuel the parser gives the scanner. -/
theorem scanString_quoted (s : String) (rest : List Char) :
    scanString ((s.data.flatMap escapeChar ++ '"' :: rest).length + 1)
      (s.data.flatMap escapeChar ++ '"' :: rest) = .ok (s.data, rest) := by
  apply scanString_escaped
  have := flatMap_escapeChar_length s.data
  simp only [List.length_append, List.length_cons]
  omega

/-- The first character of the text of a number: a minus sign or a digit. -/
theorem formatInt_head (i : Int) :
    ∃ c tl, formatInt i = c :: tl ∧ (c = '-' ∨ isDigit c = true) := by
  cases i with
  | ofNat n =>
    simp only [formatInt]
    cases hd : natDigits (n + 1) n with
    | nil => exact absurd hd (by unfold natDigits; split <;> simp)
    | cons c tl =>
      have hall := natDigits_all_digits (n + 1) n
      rw [hd] at hall
      exact ⟨c, tl, rfl, Or.inr (hall c (List.mem_cons_self _ _))⟩
  | negSucc n => exact ⟨'-', _, rfl, Or.inl rfl⟩

theorem head_facts (c : Char) (h : c = '-' ∨ isDigit c = true) :
    isSpace c = false ∧ c ≠ '{' ∧ c ≠ '[' ∧ c ≠ '"' ∧ c ≠ 't' ∧ c ≠ 'f' ∧ c ≠ 'n' ∧
      c ≠ ']' ∧ c ≠ '}' := by
  rcases h with rfl | h
  · decide
  · simp only [isDigit, decide_eq_true_eq] at h
    have h1 : ('0' : Char).toNat = 48 := by decide
    have h2 : ('9' : Char).toNat = 57 := by decide
    rw [h1, h2] at h
    have key : ∀ d : Char, ¬ (48 ≤ d.toNat ∧ d.toNat ≤ 57) → c ≠ d := by
      intro d hd hcd
      rw [hcd] at h
      exact hd h
    refine ⟨?_, key _ (by decide), key _ (by decide), key _ (by decide), key _ (by decide),
      key _ (by decide), key _ (by decide), key _ (by decide), key _ (by decide)⟩
    have s1 := key ' ' (by decide)
    have s2 := key '\t' (by decide)
    have s3 := key '\r' (by decide)
    have s4 := key '\n' (by decide)
    simp [isSpace, s1, s2, s3, s4]

/-- The text of a document starts with a character that is neither white space nor a
closing bracket. -/
theorem render_head : ∀ j : JSON, j.integral →
    ∃ c tl, render j = c :: tl ∧ isSpace c = false ∧ c ≠ ']' ∧ c ≠ '}'
  | .null, _ => ⟨'n', _, rfl, by decide, by decide, by decide⟩
  | .bool true, _ => ⟨'t', _, rfl, by decide, by decide, by decide⟩
  | .bool false, _ => ⟨'f', _, rfl, by decide, by decide, by decide⟩
  | .num lit, h => by
    obtain ⟨i, rfl⟩ := h
    obtain ⟨c, tl, h1, h2⟩ := formatInt_head i
    have hf := head_facts c h2
    exact ⟨c, tl, by simp only [render, h1], hf.1, hf.2.2.2.2.2.2.2.1, hf.2.2.2.2.2.2.2.2⟩
  | .str s, _ => ⟨'"', _, rfl, by decide, by decide, by decide⟩
  | .arr xs, _ => ⟨'[', _, rfl, by decide, by decide, by decide⟩
  | .obj kvs, _ => ⟨'{', _, rfl, by decide, by decide, by decide⟩

theorem terminated_comma (tl : List Char) : Terminated (',' :: tl) := by
  intro c t h
  simp only [List.cons.injEq] at h
  exact Or.inl h.1.symm

theorem terminated_bracket (tl : List Char) : Terminated (']' :: tl) := by
  intro c t h
  simp only [List.cons.injEq] at h
  exact Or.inr (Or.inl h.1.symm)

theorem terminated_brace (tl : List Char) : Terminated ('}' :: tl) := by
  intro c t h
  simp only [List.cons.injEq] at h
  exact Or.inr (Or.inr h.1.symm)

theorem terminated_nil : Terminated [] := by
  intro c t h
  simp at h

/-! The parser, one step at a time. -/

theorem parseValue_str_ok (f d : Nat) (tail s rest : List Char)
    (h : scanString (tail.length + 1) tail = .ok (s, rest)) :
    parseValue (f + 1) d ('"' :: tail) = .ok (.str (String.mk s), rest) := by
  simp [parseValue, skipSpace, isSpace, h]

theorem parseValue_num_ok (f d : Nat) (c : Char) (tl lit rest : List Char)
    (hc : c = '-' ∨ isDigit c = true) (h : scanNumber (c :: tl) = .ok (lit, rest)) :
    parseValue (f + 1) d (c :: tl) = .ok (.num (String.mk lit), rest) := by
  have hf := head_facts c hc
  simp only [parseValue, skipSpace_cons c _ hf.1, hf.2.1, hf.2.2.1, hf.2.2.2.1, hf.2.2.2.2.1,
    hf.2.2.2.2.2.1, hf.2.2.2.2.2.2.1, if_false, hc, if_true, h]

theorem parseValue_arr_ok (f d : Nat) (c : Char) (tl : List Char) (xs : List JSON)
    (rest : List Char) (hd : d + 1 ≤ maxNestingDepth) (hsp : isSpace c = false) (hb : c ≠ ']')
    (h : parseElems f (d + 1) (c :: tl) = .ok (xs, rest)) :
    parseValue (f + 1) d ('[' :: c :: tl) = .ok (.arr xs, rest) := by
  have h1 : skipSpace ('[' :: c :: tl) = '[' :: c :: tl := skipSpace_cons _ _ (by decide)
  have h2 : ('[' : Char) ≠ '{' := by decide
  have h3 : ¬ maxNestingDepth < d + 1 := Nat.not_lt.mpr hd
  simp only [parseValue, h1, h2, h3, if_false, if_true, skipSpace_cons c _ hsp, hb, h]

theorem parseValue_obj_ok (f d : Nat) (tl : List Char) (kvs : List (String × JSON))
    (rest : List Char) (hd : d + 1 ≤ maxNestingDepth)
    (h : parseMembers f (d + 1) ('"' :: tl) = .ok (kvs, rest)) :
    parseValue (f + 1) d ('{' :: '"' :: tl) = .ok (.obj kvs, rest) := by
  have h1 : skipSpace ('{' :: '"' :: tl) = '{' :: '"' :: tl := skipSpace_cons _ _ (by decide)
  have h3 : skipSpace ('"' :: tl) = '"' :: tl := skipSpace_cons _ _ (by decide)
  have h2 : ('"' : Char) ≠ '}' := by decide
  have h4 : ¬ maxNestingDepth < d + 1 := Nat.not_lt.mpr hd
  simp only [parseValue, h1, if_true, h3, h2, h4, if_false, h]

theorem parseElems_last_ok (f d : Nat) (cs : List Char) (x : JSON) (rest : List Char)
    (h : parseValue f d cs = .ok (x, ']' :: rest)) :
    parseElems (f + 1) d cs = .ok ([x], rest) := by
  have h1 : skipSpace (']' :: rest) = ']' :: rest := skipSpace_cons _ _ (by decide)
  have h2 : (']' : Char) ≠ ',' := by decide
  simp only [parseElems, h, h1, h2, if_false, if_true]

theorem parseElems_more_ok (f d : Nat) (cs tl : List Char) (x : JSON) (xs : List JSON)
    (rest : List Char) (h : parseValue f d cs = .ok (x, ',' :: tl))
    (h2 : parseElems f d tl = .ok (xs, rest)) :
    parseElems (f + 1) d cs = .ok (x :: xs, rest) := by
  have h1 : skipSpace (',' :: tl) = ',' :: tl := skipSpace_cons _ _ (by decide)
  simp only [parseElems, h, h1, if_true, h2]

theorem parseMembers_last_ok (f d : Nat) (tail k tl : List Char) (v : JSON) (rest : List Char)
    (hs : scanString (tail.length + 1) tail = .ok (k, ':' :: tl))
    (hv : parseValue f d tl = .ok (v, '}' :: rest)) :
    parseMembers (f + 1) d ('"' :: tail) = .ok ([(String.mk k, v)], rest) := by
  have h0 : skipSpace (':' :: tl) = ':' :: tl := skipSpace_cons _ _ (by decide)
  have h1 : skipSpace ('}' :: rest) = '}' :: rest := skipSpace_cons _ _ (by decide)
  have h2 : ('}' : Char) ≠ ',' := by decide
  simp only [parseMembers, if_true, hs, h0, hv, h1, h2, if_false]

theorem parseMembers_more_ok (f d : Nat) (tail k tl tl2 : List Char) (v : JSON)
    (kvs : List (String × JSON)) (rest : List Char)
    (hs : scanString (tail.length + 1) tail = .ok (k, ':' :: tl))
    (hv : parseValue f d tl = .ok (v, ',' :: '"' :: tl2))
    (hm : parseMembers f d ('"' :: tl2) = .ok (kvs, rest)) :
    parseMembers (f + 1) d ('"' :: tail) = .ok ((String.mk k, v) :: kvs, rest) := by
  have h0 : skipSpace (':' :: tl) = ':' :: tl := skipSpace_cons _ _ (by decide)
  have h1 : skipSpace (',' :: '"' :: tl2) = ',' :: '"' :: tl2 := skipSpace_cons _ _ (by decide)
  have h3 : skipSpace ('"' :: tl2) = '"' :: tl2 := skipSpace_cons _ _ (by decide)
  simp only [parseMembers, if_true, hs, h0, hv, h1, h3, hm]

theorem renderElems_head (x : JSON) (xs : List JSON) (hx : x.integral) :
    ∃ c tl, renderElems (x :: xs) = c :: tl ∧ isSpace c = false ∧ c ≠ ']' := by
  obtain ⟨c, tl, hc, h1, h2, _⟩ := render_head x hx
  cases xs with
  | nil => exact ⟨c, tl, by simp only [renderElems, hc], h1, h2⟩
  | cons y ys =>
    exact ⟨c, tl ++ ',' :: renderElems (y :: ys),
      by simp only [renderElems, hc, List.cons_append], h1, h2⟩

theorem renderMembers_head (kv : String × JSON) (kvs : List (String × JSON)) :
    ∃ tl, renderMembers (kv :: kvs) = '"' :: tl := by
  obtain ⟨k, v⟩ := kv
  cases kvs with
  | nil =>
    exact ⟨k.data.flatMap escapeChar ++ '"' :: ':' :: render v,
      by simp only [renderMembers, quote_append]⟩
  | cons y ys =>
    obtain ⟨k2, v2⟩ := y
    exact ⟨k.data.flatMap escapeChar ++
        '"' :: ':' :: (render v ++ ',' :: renderMembers ((k2, v2) :: ys)),
      by simp only [renderMembers, quote_append]⟩

mutual
/-- The text of a document read back gives the document and what followed it. -/
theorem parseValue_render : ∀ (j : JSON), j.integral → ∀ (fuel d : Nat) (rest : List Char),
    j.weight ≤ fuel → d + j.depth ≤ maxNestingDepth → Terminated rest →
    parseValue fuel d (render j ++ rest) = .ok (j, rest)
  | .null, _, fuel, d, rest, hf, _, _ => by
    cases fuel with
    | zero => simp [JSON.weight] at hf
    | succ f => simp [render, parseValue, skipSpace, isSpace]
  | .bool true, _, fuel, d, rest, hf, _, _ => by
    cases fuel with
    | zero => simp [JSON.weight] at hf
    | succ f => simp [render, parseValue, skipSpace, isSpace]
  | .bool false, _, fuel, d, rest, hf, _, _ => by
    cases fuel with
    | zero => simp [JSON.weight] at hf
    | succ f => simp [render, parseValue, skipSpace, isSpace]
  | .num lit, h, fuel, d, rest, hf, _, ht => by
    cases fuel with
    | zero => simp [JSON.weight] at hf
    | succ f =>
      obtain ⟨i, rfl⟩ := h
      obtain ⟨c, tl, h1, h2⟩ := formatInt_head i
      have hn := scanNumber_formatInt i rest ht
      simp only [render]
      rw [h1] at hn ⊢
      exact parseValue_num_ok f d c _ _ rest h2 hn
  | .str s, _, fuel, d, rest, hf, _, _ => by
    cases fuel with
    | zero => simp [JSON.weight] at hf
    | succ f =>
      simp only [render, quote_append]
      exact parseValue_str_ok f d _ _ rest (scanString_quoted s rest)
  | .arr [], _, fuel, d, rest, hf, hd, _ => by
    cases fuel with
    | zero => simp [JSON.weight] at hf
    | succ f =>
      simp only [JSON.depth, JSON.depthAll] at hd
      have h3 : ¬ maxNestingDepth < d + 1 := Nat.not_lt.mpr hd
      simp [render, renderElems, parseValue, skipSpace, isSpace, h3]
  | .arr (x :: xs), h, fuel, d, rest, hf, hd, _ => by
    cases fuel with
    | zero => simp [JSON.weight] at hf
    | succ f =>
      simp only [JSON.weight, Nat.add_le_add_iff_right] at hf
      simp only [JSON.depth] at hd
      have he := parseElems_render (x :: xs) (by simp) h f (d + 1) rest hf (by omega)
      obtain ⟨c, tl, hc, hsp, hb⟩ := renderElems_head x xs h.1
      rw [hc] at he
      simp only [render, hc, List.cons_append, List.append_assoc, List.singleton_append]
      exact parseValue_arr_ok f d c _ _ rest (by omega) hsp hb he
  | .obj [], _, fuel, d, rest, hf, hd, _ => by
    cases fuel with
    | zero => simp [JSON.weight] at hf
    | succ f =>
      simp only [JSON.depth, JSON.depthMembers] at hd
      have h3 : ¬ maxNestingDepth < d + 1 := Nat.not_lt.mpr hd
      simp [render, renderMembers, parseValue, skipSpace, isSpace, h3]
  | .obj (kv :: kvs), h, fuel, d, rest, hf, hd, _ => by
    cases fuel with
    | zero => simp [JSON.weight] at hf
    | succ f =>
      simp only [JSON.weight, Nat.add_le_add_iff_right] at hf
      simp only [JSON.depth] at hd
      have he := parseMembers_render (kv :: kvs) (by simp) h f (d + 1) rest hf (by omega)
      obtain ⟨tl, hc⟩ := renderMembers_head kv kvs
      rw [hc] at he
      simp only [render, hc, List.cons_append, List.append_assoc, List.singleton_append]
      exact parseValue_obj_ok f d _ _ rest (by omega) he
/-- The text of the elements of an array read back. -/
theorem parseElems_render : ∀ (l : List JSON), l ≠ [] → JSON.allIntegral l →
    ∀ (fuel d : Nat) (rest : List Char), JSON.weightAll l ≤ fuel →
    d + JSON.depthAll l ≤ maxNestingDepth →
    parseElems fuel d (renderElems l ++ ']' :: rest) = .ok (l, rest)
  | [], hne, _, _, _, _, _, _ => absurd rfl hne
  | [x], _, h, fuel, d, rest, hf, hd => by
    cases fuel with
    | zero => simp [JSON.weightAll] at hf
    | succ f =>
      simp only [JSON.weightAll] at hf
      simp only [JSON.depthAll] at hd
      have hv := parseValue_render x h.1 f d (']' :: rest) (by omega) (by omega)
        (terminated_bracket rest)
      simp only [renderElems]
      exact parseElems_last_ok f d _ x rest hv
  | x :: y :: ys, _, h, fuel, d, rest, hf, hd => by
    cases fuel with
    | zero => simp [JSON.weightAll] at hf
    | succ f =>
      simp only [JSON.weightAll] at hf
      have hd1 : d + x.depth ≤ maxNestingDepth ∧
          d + JSON.depthAll (y :: ys) ≤ maxNestingDepth := by
        rw [JSON.depthAll] at hd
        omega
      have hv := parseValue_render x h.1 f d (',' :: (renderElems (y :: ys) ++ ']' :: rest))
        (by omega) hd1.1 (terminated_comma _)
      have he := parseElems_render (y :: ys) (by simp) h.2 f d rest
        (by simp only [JSON.weightAll]; omega) hd1.2
      simp only [renderElems, List.append_assoc, List.cons_append]
      exact parseElems_more_ok f d _ _ x _ rest hv he
/-- The text of the members of an object read back. -/
theorem parseMembers_render : ∀ (l : List (String × JSON)), l ≠ [] →
    JSON.membersIntegral l → ∀ (fuel d : Nat) (rest : List Char), JSON.weightMembers l ≤ fuel →
    d + JSON.depthMembers l ≤ maxNestingDepth →
    parseMembers fuel d (renderMembers l ++ '}' :: rest) = .ok (l, rest)
  | [], hne, _, _, _, _, _, _ => absurd rfl hne
  | [(k, v)], _, h, fuel, d, rest, hf, hd => by
    cases fuel with
    | zero => simp [JSON.weightMembers] at hf
    | succ f =>
      simp only [JSON.weightMembers] at hf
      simp only [JSON.depthMembers] at hd
      have hv := parseValue_render v h.1 f d ('}' :: rest) (by omega) (by omega)
        (terminated_brace rest)
      have hs := scanString_quoted k (':' :: (render v ++ '}' :: rest))
      simp only [renderMembers, List.append_assoc, List.cons_append, quote_append]
      exact parseMembers_last_ok f d _ _ _ v rest hs hv
  | (k, v) :: m :: ms, _, h, fuel, d, rest, hf, hd => by
    cases fuel with
    | zero => simp [JSON.weightMembers] at hf
    | succ f =>
      simp only [JSON.weightMembers] at hf
      have hd1 : d + v.depth ≤ maxNestingDepth ∧
          d + JSON.depthMembers (m :: ms) ≤ maxNestingDepth := by
        rw [JSON.depthMembers] at hd
        omega
      obtain ⟨tl2, hc⟩ := renderMembers_head m ms
      have hv := parseValue_render v h.1 f d (',' :: (renderMembers (m :: ms) ++ '}' :: rest))
        (by omega) hd1.1 (terminated_comma _)
      have he := parseMembers_render (m :: ms) (by simp) h.2 f d rest
        (by obtain ⟨k2, v2⟩ := m; simp only [JSON.weightMembers] at hf ⊢; omega) hd1.2
      have hs := scanString_quoted k
        (':' :: (render v ++ ',' :: (renderMembers (m :: ms) ++ '}' :: rest)))
      rw [hc] at hv he hs
      simp only [List.cons_append] at hv he hs
      simp only [renderMembers, hc, List.append_assoc, List.cons_append, quote_append]
      exact parseMembers_more_ok f d _ _ _ _ v _ rest hs hv he
end



/-! ### Whole documents -/

theorem formatInt_length (i : Int) : 1 ≤ (formatInt i).length := by
  obtain ⟨c, tl, h, _⟩ := formatInt_head i
  rw [h]
  simp

theorem quote_length (s : String) : 2 ≤ (quote s).length := by
  simp [quote]

mutual
theorem weight_le : ∀ j : JSON, j.integral → j.weight ≤ 2 * (render j).length
  | .null, _ => by simp [JSON.weight, render]
  | .bool true, _ => by simp [JSON.weight, render]
  | .bool false, _ => by simp [JSON.weight, render]
  | .num lit, h => by
    obtain ⟨i, rfl⟩ := h
    have := formatInt_length i
    simp only [JSON.weight, render]
    omega
  | .str s, _ => by
    have := quote_length s
    simp only [JSON.weight, render]
    omega
  | .arr xs, h => by
    have := weightAll_le xs h
    simp only [JSON.weight, render, List.length_cons, List.length_append, List.length_nil]
    omega
  | .obj kvs, h => by
    have := weightMembers_le kvs h
    simp only [JSON.weight, render, List.length_cons, List.length_append, List.length_nil]
    omega
theorem weightAll_le : ∀ l : List JSON, JSON.allIntegral l →
    JSON.weightAll l ≤ 2 * (renderElems l).length + 1
  | [], _ => by simp [JSON.weightAll]
  | [x], h => by
    have := weight_le x h.1
    simp only [JSON.weightAll, renderElems]
    omega
  | x :: y :: ys, h => by
    have h1 := weight_le x h.1
    have h2 := weightAll_le (y :: ys) h.2
    simp only [JSON.weightAll, renderElems, List.length_append, List.length_cons] at h2 ⊢
    omega
theorem weightMembers_le : ∀ l : List (String × JSON), JSON.membersIntegral l →
    JSON.weightMembers l ≤ 2 * (renderMembers l).length + 1
  | [], _ => by simp [JSON.weightMembers]
  | [(k, v)], h => by
    have := weight_le v h.1
    simp only [JSON.weightMembers, renderMembers, List.length_append, List.length_cons]
    omega
  | (k, v) :: m :: ms, h => by
    have h1 := weight_le v h.1
    have h2 := weightMembers_le (m :: ms) h.2
    obtain ⟨k2, v2⟩ := m
    simp only [JSON.weightMembers, renderMembers, List.length_append, List.length_cons] at h2 ⊢
    omega
end

/-- The text of a document, read as a stream, gives the document back. -/
theorem readValue_render (j : JSON) (h : j.integral) (hd : j.depth ≤ maxNestingDepth) :
    readValue (String.mk (render j)) = .ok j := by
  obtain ⟨c, tl, hc, hsp, _, _⟩ := render_head j h
  have hw := weight_le j h
  have hp := parseValue_render j h (2 * (render j).length + 2) 0 [] (by omega) (by omega)
    terminated_nil
  simp only [List.append_nil] at hp
  simp only [readValue]
  rw [hc] at hp ⊢
  rw [skipSpace_cons c tl hsp]
  simp only [hp]

theorem skipSpace_length : ∀ cs : List Char, (skipSpace cs).length ≤ cs.length
  | [] => Nat.le_refl _
  | c :: cs => by
    unfold skipSpace
    split
    · have := skipSpace_length cs
      simp only [List.length_cons]
      omega
    · exact Nat.le_refl _

theorem spanDigits_length : ∀ cs : List Char, (spanDigits cs).2.length ≤ cs.length
  | [] => Nat.le_refl _
  | c :: cs => by
    unfold spanDigits
    split
    · have := spanDigits_length cs
      simp only [List.length_cons]
      omega
    · exact Nat.le_refl _

theorem spanDigits_match_length (r1 pre lit rest : List Char) (msg : String)
    (h : (match spanDigits r1 with
      | ([], []) => Except.error (GoError.lib "unexpected EOF")
      | ([], _) => Except.error (GoError.lib msg)
      | (ds, rest2) => Except.ok (pre ++ ds, rest2)) = .ok (lit, rest)) :
    rest.length ≤ r1.length := by
  have hl := spanDigits_length r1
  split at h
  · simp at h
  · simp at h
  · rename_i ds rest2 _ _ heq
    simp only [Except.ok.injEq, Prod.mk.injEq] at h
    rw [heq] at hl
    rw [← h.2]
    exact hl

theorem scanExponent_length (cs lit rest : List Char) (h : scanExponent cs = .ok (lit, rest)) :
    rest.length ≤ cs.length := by
  unfold scanExponent at h
  split at h
  · rename_i e tl
    split at h
    · cases tl with
      | nil => simp [spanDigits] at h
      | cons s r1 =>
        by_cases hs : s = '+' ∨ s = '-'
        · simp only [hs, if_true] at h
          have := spanDigits_match_length r1 (e :: [s]) lit rest _ h
          simp only [List.length_cons]
          omega
        · simp only [hs, if_false] at h
          have := spanDigits_match_length (s :: r1) (e :: []) lit rest _ h
          simp only [List.length_cons] at this ⊢
          omega
    · simp only [Except.ok.injEq, Prod.mk.injEq] at h
      rw [← h.2]
  · simp only [Except.ok.injEq, Prod.mk.injEq] at h
    rw [← h.2]

theorem scanFraction_length (cs lit rest : List Char) (h : scanFraction cs = .ok (lit, rest)) :
    rest.length ≤ cs.length := by
  unfold scanFraction at h
  split at h
  · rename_i tl
    have := spanDigits_match_length tl ['.'] lit rest _ h
    simp only [List.length_cons]
    omega
  · simp only [Except.ok.injEq, Prod.mk.injEq] at h
    rw [← h.2]

theorem scanIntPart_length (cs lit rest : List Char) (h : scanIntPart cs = .ok (lit, rest)) :
    rest.length < cs.length := by
  unfold scanIntPart at h
  split at h
  · simp at h
  · rename_i c tl
    split at h
    · simp only [Except.ok.injEq, Prod.mk.injEq] at h
      rw [← h.2]
      simp
    · split at h
      · simp only [Except.ok.injEq, Prod.mk.injEq] at h
        have := spanDigits_length tl
        rw [← h.2]
        simp only [List.length_cons]
        omega
      · simp at h

theorem scanUnsigned_length (cs lit rest : List Char) (h : scanUnsigned cs = .ok (lit, rest)) :
    rest.length < cs.length := by
  unfold scanUnsigned at h
  split at h
  · simp at h
  · rename_i ip rest1 h1
    split at h
    · simp at h
    · rename_i fp rest2 h2
      split at h
      · simp at h
      · rename_i ep rest3 h3
        simp only [Except.ok.injEq, Prod.mk.injEq] at h
        have := scanIntPart_length _ _ _ h1
        have := scanFraction_length _ _ _ h2
        have := scanExponent_length _ _ _ h3
        rw [← h.2]
        omega

theorem scanNumber_length (cs lit rest : List Char) (h : scanNumber cs = .ok (lit, rest)) :
    rest.length < cs.length := by
  unfold scanNumber at h
  split at h
  · exact scanUnsigned_length _ _ _ h
  · rename_i c tl
    split at h
    · split at h
      · rename_i l r hu
        simp only [Except.ok.injEq, Prod.mk.injEq] at h
        have := scanUnsigned_length _ _ _ hu
        rw [← h.2]
        simp only [List.length_cons]
        omega
      · simp at h
    · exact scanUnsigned_length _ _ _ h


theorem scanExponent_modelled (cs : List Char) : Modelled (scanExponent cs) := by
  unfold Modelled scanExponent
  repeat' split
  all_goals simp

theorem scanFraction_modelled (cs : List Char) : Modelled (scanFraction cs) := by
  unfold Modelled scanFraction
  repeat' split
  all_goals simp

theorem scanIntPart_modelled (cs : List Char) : Modelled (scanIntPart cs) := by
  unfold Modelled scanIntPart
  repeat' split
  all_goals simp

theorem scanUnsigned_modelled (cs : List Char) : Modelled (scanUnsigned cs) := by
  unfold scanUnsigned
  split
  · rename_i e h
    rw [← h]
    exact scanIntPart_modelled _
  · split
    · rename_i e h
      rw [← h]
      exact scanFraction_modelled _
    · split
      · rename_i e h
        rw [← h]
        exact scanExponent_modelled _
      · simp [Modelled]

theorem scanNumber_modelled (cs : List Char) : Modelled (scanNumber cs) := by
  unfold scanNumber
  split
  · exact scanUnsigned_modelled _
  · split
    · split
      · simp [Modelled]
      · rename_i e h
        rw [← h]
        exact scanUnsigned_modelled _
    · exact scanUnsigned_modelled _



theorem lowSurrogate_length (rr : Nat) (l : List Char) (ch : Char) (rest : List Char)
    (h : lowSurrogate rr l = some (ch, rest)) : rest.length < l.length := by
  unfold lowSurrogate at h
  split at h
  · split at h
    · split at h
      · simp only [Option.some.injEq, Prod.mk.injEq] at h
        rw [← h.2]
        simp only [List.length_cons]
        omega
      · simp at h
    · simp at h
  · simp at h

theorem pair_length (rr : Nat) (l : List Char) (ch : Char) (rest : List Char)
    (h : (if 0xD800 ≤ rr ∧ rr < 0xDC00 then lowSurrogate rr l else none) = some (ch, rest)) :
    rest.length < l.length := by
  split at h
  · exact lowSurrogate_length _ _ _ _ h
  · simp at h

theorem scanString_length : ∀ (fuel : Nat) (cs s r : List Char),
    scanString fuel cs = .ok (s, r) → r.length < cs.length
  | 0, _, _, _, h => by simp [scanString] at h
  | fuel + 1, [], _, _, h => by simp [scanString] at h
  | fuel + 1, c :: cs, s, r, h => by
    unfold scanString at h
    split at h
    · simp only [Except.ok.injEq, Prod.mk.injEq] at h
      rw [← h.2]
      simp
    · split at h
      · split at h
        · simp at h
        · rename_i e rest
          split at h
          · split at h
            · rename_i a b c1 d rest1
              split at h
              · simp at h
              · rename_i rr hrr
                generalize hp : (if 0xD800 ≤ rr ∧ rr < 0xDC00 then lowSurrogate rr rest1
                  else none) = pair at h
                cases pair with
                | none =>
                  simp only at h
                  split at h
                  · rename_i s2 r2 hs
                    have h1 := scanString_length fuel _ _ _ hs
                    simp only [Except.ok.injEq, Prod.mk.injEq] at h
                    rw [← h.2]
                    simp only [List.length_cons]
                    omega
                  · simp at h
                | some p =>
                  obtain ⟨ch, rest2⟩ := p
                  have h2 := pair_length _ _ _ _ hp
                  simp only at h
                  split at h
                  · rename_i s2 r2 hs
                    have h1 := scanString_length fuel _ _ _ hs
                    simp only [Except.ok.injEq, Prod.mk.injEq] at h
                    rw [← h.2]
                    simp only [List.length_cons]
                    omega
                  · simp at h
            · simp at h
          · split at h
            · simp at h
            · split at h
              · rename_i s2 r2 hs
                have h1 := scanString_length fuel _ _ _ hs
                simp only [Except.ok.injEq, Prod.mk.injEq] at h
                rw [← h.2]
                simp only [List.length_cons]
                omega
              · simp at h
      · split at h
        · simp at h
        · split at h
          · rename_i s2 r2 hs
            have h1 := scanString_length fuel _ _ _ hs
            simp only [Except.ok.injEq, Prod.mk.injEq] at h
            rw [← h.2]
            simp only [List.length_cons]
            omega
          · simp at h

theorem modelled_ok {α : Type} (a : α) : Modelled (Except.ok a : Except GoError α) := by
  simp [Modelled]

theorem modelled_lib {α : Type} (msg : String) :
    Modelled (Except.error (.lib msg) : Except GoError α) := by
  simp [Modelled]

theorem scanString_tail_modelled (fuel : Nat) (ch : Char) (tl : List Char)
    (h : Modelled (scanString fuel tl)) :
    Modelled (match scanString fuel tl with
      | .ok (s, r) => Except.ok (ch :: s, r)
      | .error err => .error err) := by
  split
  · exact modelled_ok _
  · rename_i err hs
    rw [← hs]
    exact h

theorem scanString_modelled : ∀ (fuel : Nat) (cs : List Char), cs.length < fuel →
    Modelled (scanString fuel cs)
  | 0, _, h => by omega
  | fuel + 1, [], _ => by simp [scanString, Modelled]
  | fuel + 1, c :: cs, hf => by
    simp only [List.length_cons] at hf
    unfold scanString
    split
    · exact modelled_ok _
    · split
      · split
        · exact modelled_lib _
        · rename_i e rest
          split
          · split
            · rename_i a b c1 d rest1
              split
              · exact modelled_lib _
              · rename_i rr hrr
                generalize hp : (if 0xD800 ≤ rr ∧ rr < 0xDC00 then lowSurrogate rr rest1
                  else none) = pair
                cases pair with
                | none =>
                  exact scanString_tail_modelled fuel _ _ (scanString_modelled fuel rest1
                    (by simp only [List.length_cons] at hf; omega))
                | some p =>
                  obtain ⟨ch, rest2⟩ := p
                  have h2 := pair_length _ _ _ _ hp
                  exact scanString_tail_modelled fuel _ _ (scanString_modelled fuel rest2
                    (by simp only [List.length_cons] at hf; omega))
            · exact modelled_lib _
          · split
            · exact modelled_lib _
            · exact scanString_tail_modelled fuel _ _ (scanString_modelled fuel rest
                (by simp only [List.length_cons] at hf; omega))
      · split
        · exact modelled_lib _
        · exact scanString_tail_modelled fuel _ _ (scanString_modelled fuel cs (by omega))

theorem skipSpace_cons_length (cs : List Char) (c : Char) (rest : List Char)
    (h : skipSpace cs = c :: rest) : rest.length + 1 ≤ cs.length := by
  have := skipSpace_length cs
  rw [h] at this
  simpa using this

theorem parseValue_length_step (fuel : Nat)
    (ihE : ∀ d cs xs rest, parseElems fuel d cs = .ok (xs, rest) → rest.length < cs.length)
    (ihM : ∀ d cs kvs rest, parseMembers fuel d cs = .ok (kvs, rest) → rest.length < cs.length)
    (d : Nat) (cs : List Char) (v : JSON) (rest : List Char)
    (h : parseValue (fuel + 1) d cs = .ok (v, rest)) : rest.length < cs.length := by
  unfold parseValue at h
  split at h
  · simp at h
  · rename_i c rest0 hs
    have hlen := skipSpace_cons_length _ _ _ hs
    split at h
    · split at h
      · simp at h
      · split at h
        · simp at h
        · rename_i c1 rest1 hs1
          have hlen1 := skipSpace_cons_length _ _ _ hs1
          split at h
          · simp only [Except.ok.injEq, Prod.mk.injEq] at h
            rw [← h.2]
            omega
          · split at h
            · rename_i kvs rest2 hm
              have := ihM _ _ _ _ hm
              simp only [Except.ok.injEq, Prod.mk.injEq] at h
              simp only [List.length_cons] at this
              rw [← h.2]
              omega
            · simp at h
    · split at h
      · split at h
        · simp at h
        · split at h
          · simp at h
          · rename_i c1 rest1 hs1
            have hlen1 := skipSpace_cons_length _ _ _ hs1
            split at h
            · simp only [Except.ok.injEq, Prod.mk.injEq] at h
              rw [← h.2]
              omega
            · split at h
              · rename_i xs rest2 hm
                have := ihE _ _ _ _ hm
                simp only [Except.ok.injEq, Prod.mk.injEq] at h
                simp only [List.length_cons] at this
                rw [← h.2]
                omega
              · simp at h
      · split at h
        · split at h
          · rename_i s rest1 hss
            have := scanString_length _ _ _ _ hss
            simp only [Except.ok.injEq, Prod.mk.injEq] at h
            rw [← h.2]
            omega
          · simp at h
        · split at h
          · split at h
            · simp only [Except.ok.injEq, Prod.mk.injEq] at h
              rw [← h.2]
              simp only [List.length_cons] at hlen
              omega
            · simp at h
          · split at h
            · split at h
              · simp only [Except.ok.injEq, Prod.mk.injEq] at h
                rw [← h.2]
                simp only [List.length_cons] at hlen
                omega
              · simp at h
            · split at h
              · split at h
                · simp only [Except.ok.injEq, Prod.mk.injEq] at h
                  rw [← h.2]
                  simp only [List.length_cons] at hlen
                  omega
                · simp at h
              · split at h
                · split at h
                  · rename_i lit rest1 hn
                    have := scanNumber_length _ _ _ hn
                    simp only [Except.ok.injEq, Prod.mk.injEq] at h
                    simp only [List.length_cons] at this
                    rw [← h.2]
                    omega
                  · simp at h
                · simp at h


theorem parseElems_length_step (fuel : Nat)
    (ihV : ∀ d cs v rest, parseValue fuel d cs = .ok (v, rest) → rest.length < cs.length)
    (ihE : ∀ d cs xs rest, parseElems fuel d cs = .ok (xs, rest) → rest.length < cs.length)
    (d : Nat) (cs : List Char) (xs : List JSON) (rest : List Char)
    (h : parseElems (fuel + 1) d cs = .ok (xs, rest)) : rest.length + 1 < cs.length := by
  unfold parseElems at h
  split at h
  · simp at h
  · rename_i x rest0 hv
    have h0 := ihV _ _ _ _ hv
    split at h
    · simp at h
    · rename_i c rest1 hs
      have hlen := skipSpace_cons_length _ _ _ hs
      split at h
      · split at h
        · rename_i ys rest2 he
          have := ihE _ _ _ _ he
          simp only [Except.ok.injEq, Prod.mk.injEq] at h
          rw [← h.2]
          omega
        · simp at h
      · split at h
        · simp only [Except.ok.injEq, Prod.mk.injEq] at h
          rw [← h.2]
          omega
        · simp at h

theorem parseMembers_length_step (fuel : Nat)
    (ihV : ∀ d cs v rest, parseValue fuel d cs = .ok (v, rest) → rest.length < cs.length)
    (ihM : ∀ d cs kvs rest, parseMembers fuel d cs = .ok (kvs, rest) → rest.length < cs.length)
    (d : Nat) (cs : List Char) (kvs : List (String × JSON)) (rest : List Char)
    (h : parseMembers (fuel + 1) d cs = .ok (kvs, rest)) : rest.length + 1 < cs.length := by
  unfold parseMembers at h
  split at h
  · simp at h
  · rename_i q rest0
    split at h
    · split at h
      · simp at h
      · rename_i k rest1 hss
        have h1 := scanString_length _ _ _ _ hss
        split at h
        · simp at h
        · rename_i c rest2 hs
          have hlen := skipSpace_cons_length _ _ _ hs
          split at h
          · split at h
            · simp at h
            · rename_i v rest3 hv
              have h3 := ihV _ _ _ _ hv
              split at h
              · simp at h
              · rename_i c1 rest4 hs4
                have hlen4 := skipSpace_cons_length _ _ _ hs4
                split at h
                · split at h
                  · rename_i ms rest5 hm
                    have h5 := ihM _ _ _ _ hm
                    have h6 := skipSpace_length rest4
                    simp only [Except.ok.injEq, Prod.mk.injEq] at h
                    rw [← h.2]
                    simp only [List.length_cons]
                    omega
                  · simp at h
                · split at h
                  · simp only [Except.ok.injEq, Prod.mk.injEq] at h
                    rw [← h.2]
                    simp only [List.length_cons]
                    omega
                  · simp at h
          · simp at h
    · simp at h

/-- What the parser returns as the rest of the input is shorter than the input. -/
theorem parse_length : ∀ fuel : Nat,
    (∀ d cs v rest, parseValue fuel d cs = .ok (v, rest) → rest.length < cs.length) ∧
    (∀ d cs xs rest, parseElems fuel d cs = .ok (xs, rest) → rest.length < cs.length) ∧
    (∀ d cs kvs rest, parseMembers fuel d cs = .ok (kvs, rest) → rest.length < cs.length)
  | 0 => ⟨fun d cs v rest h => by simp [parseValue] at h,
          fun d cs v rest h => by simp [parseElems] at h,
          fun d cs v rest h => by simp [parseMembers] at h⟩
  | fuel + 1 =>
    have ih := parse_length fuel
    ⟨parseValue_length_step fuel ih.2.1 ih.2.2,
     fun d cs xs rest h =>
       Nat.lt_of_succ_lt (parseElems_length_step fuel ih.1 ih.2.1 d cs xs rest h),
     fun d cs kvs rest h =>
       Nat.lt_of_succ_lt (parseMembers_length_step fuel ih.1 ih.2.2 d cs kvs rest h)⟩

theorem modelled_error {α β : Type} (r : Except GoError α) (e : GoError)
    (he : r = .error e) (h : Modelled r) : Modelled (Except.error e : Except GoError β) := by
  subst he
  intro hc
  apply h
  simp only [Except.error.injEq] at hc
  rw [hc]

theorem parseValue_modelled_step (fuel : Nat)
    (ihE : ∀ d cs, 2 * cs.length + 2 ≤ fuel → Modelled (parseElems fuel d cs))
    (ihM : ∀ d cs, 2 * cs.length + 1 ≤ fuel → Modelled (parseMembers fuel d cs))
    (d : Nat) (cs : List Char) (hf : 2 * cs.length + 1 ≤ fuel + 1) :
    Modelled (parseValue (fuel + 1) d cs) := by
  unfold parseValue
  split
  · exact modelled_lib _
  · rename_i c rest0 hs
    have hlen := skipSpace_cons_length _ _ _ hs
    split
    · split
      · exact modelled_lib _
      · split
        · exact modelled_lib _
        · rename_i c1 rest1 hs1
          have hlen1 := skipSpace_cons_length _ _ _ hs1
          split
          · exact modelled_ok _
          · have hm := ihM (d + 1) (c1 :: rest1) (by simp only [List.length_cons]; omega)
            split
            · exact modelled_ok _
            · rename_i e he
              exact modelled_error _ e he hm
    · split
      · split
        · exact modelled_lib _
        · split
          · exact modelled_lib _
          · rename_i c1 rest1 hs1
            have hlen1 := skipSpace_cons_length _ _ _ hs1
            split
            · exact modelled_ok _
            · have hm := ihE (d + 1) (c1 :: rest1) (by simp only [List.length_cons]; omega)
              split
              · exact modelled_ok _
              · rename_i e he
                exact modelled_error _ e he hm
      · split
        · have hm := scanString_modelled (rest0.length + 1) rest0 (by omega)
          split
          · exact modelled_ok _
          · rename_i e he
            exact modelled_error _ e he hm
        · split
          · split
            · exact modelled_ok _
            · exact modelled_lib _
          · split
            · split
              · exact modelled_ok _
              · exact modelled_lib _
            · split
              · split
                · exact modelled_ok _
                · exact modelled_lib _
              · split
                · have hm := scanNumber_modelled (c :: rest0)
                  split
                  · exact modelled_ok _
                  · rename_i e he
                    exact modelled_error _ e he hm
                · exact modelled_lib _

theorem parseElems_modelled_step (fuel : Nat)
    (ihV : ∀ d cs, 2 * cs.length + 1 ≤ fuel → Modelled (parseValue fuel d cs))
    (ihE : ∀ d cs, 2 * cs.length + 2 ≤ fuel → Modelled (parseElems fuel d cs))
    (d : Nat) (cs : List Char) (hf : 2 * cs.length + 2 ≤ fuel + 1) :
    Modelled (parseElems (fuel + 1) d cs) := by
  have hv := ihV d cs (by omega)
  unfold parseElems
  split
  · rename_i e he
    exact modelled_error _ e he hv
  · rename_i x rest0 hx
    have h0 := (parse_length fuel).1 _ _ _ _ hx
    split
    · exact modelled_lib _
    · rename_i c rest1 hs
      have hlen := skipSpace_cons_length _ _ _ hs
      split
      · have hm := ihE d rest1 (by omega)
        split
        · exact modelled_ok _
        · rename_i e he
          exact modelled_error _ e he hm
      · split
        · exact modelled_ok _
        · exact modelled_lib _

theorem parseMembers_modelled_step (fuel : Nat)
    (ihV : ∀ d cs, 2 * cs.length + 1 ≤ fuel → Modelled (parseValue fuel d cs))
    (ihM : ∀ d cs, 2 * cs.length + 1 ≤ fuel → Modelled (parseMembers fuel d cs))
    (d : Nat) (cs : List Char) (hf : 2 * cs.length + 1 ≤ fuel + 1) :
    Modelled (parseMembers (fuel + 1) d cs) := by
  unfold parseMembers
  split
  · exact modelled_lib _
  · rename_i q rest0
    simp only [List.length_cons] at hf
    split
    · have hss := scanString_modelled (rest0.length + 1) rest0 (by omega)
      split
      · rename_i e he
        exact modelled_error _ e he hss
      · rename_i k rest1 hk
        have h1 := scanString_length _ _ _ _ hk
        split
        · exact modelled_lib _
        · rename_i c rest2 hs
          have hlen := skipSpace_cons_length _ _ _ hs
          split
          · have hv := ihV d rest2 (by omega)
            split
            · rename_i e he
              exact modelled_error _ e he hv
            · rename_i v rest3 hv3
              have h3 := (parse_length fuel).1 _ _ _ _ hv3
              split
              · exact modelled_lib _
              · rename_i c1 rest4 hs4
                have hlen4 := skipSpace_cons_length _ _ _ hs4
                split
                · have h6 := skipSpace_length rest4
                  have hm := ihM d (skipSpace rest4) (by omega)
                  split
                  · exact modelled_ok _
                  · rename_i e he
                    exact modelled_error _ e he hm
                · split
                  · exact modelled_ok _
                  · exact modelled_lib _
          · exact modelled_lib _
    · exact modelled_lib _

/-- With fuel above twice the length of the input the parser does not run out of it. -/
theorem parse_modelled : ∀ fuel : Nat,
    (∀ d cs, 2 * cs.length + 1 ≤ fuel → Modelled (parseValue fuel d cs)) ∧
    (∀ d cs, 2 * cs.length + 2 ≤ fuel → Modelled (parseElems fuel d cs)) ∧
    (∀ d cs, 2 * cs.length + 1 ≤ fuel → Modelled (parseMembers fuel d cs))
  | 0 => ⟨fun d cs h => by omega, fun d cs h => by omega, fun d cs h => by omega⟩
  | fuel + 1 =>
    have ih := parse_modelled fuel
    ⟨parseValue_modelled_step fuel ih.2.1 ih.2.2,
     parseElems_modelled_step fuel ih.1 ih.2.1,
     parseMembers_modelled_step fuel ih.1 ih.2.2⟩

/-- Decoder.Decode never fails for want of fuel. -/
theorem readValue_modelled (body : String) : Modelled (readValue body) := by
  unfold readValue
  split
  · exact modelled_lib _
  · have h := (parse_modelled (2 * (skipSpace body.data).length + 2)).1 0
      (skipSpace body.data) (by omega)
    split
    · exact modelled_ok _
    · rename_i e he
      exact modelled_error _ e he h

/-- The function json.Unmarshal never fails for want of fuel. -/
theorem unmarshalValue_modelled (data : String) : Modelled (unmarshalValue data) := by
  unfold unmarshalValue
  have h := (parse_modelled (2 * data.data.length + 2)).1 0 data.data (by omega)
  split
  · rename_i e he
    exact modelled_error _ e he h
  · split
    · exact modelled_ok _
    · exact modelled_lib _

theorem decodeString_modelled (old : String) (j : JSON) : Modelled (decodeString old j) := by
  cases j <;> simp [decodeString, Modelled, typeError]

theorem map_modelled {α β : Type} (r : Except GoError α) (f : α → β) (h : Modelled r) :
    Modelled (r.map f) := by
  cases r with
  | ok a => exact modelled_ok _
  | error e => exact modelled_error _ e rfl h

theorem decodeFields_modelled {α : Type} (names : List String)
    (store : α → String → JSON → Except GoError α)
    (hstore : ∀ x n j, Modelled (store x n j)) :
    ∀ (kvs : List (String × JSON)) (x : α), Modelled (decodeFields names store kvs x)
  | [], x => modelled_ok _
  | (k, j) :: rest, x => by
    unfold decodeFields
    split
    · exact decodeFields_modelled names store hstore rest x
    · split
      · rename_i e he
        exact modelled_error _ e he (hstore _ _ _)
      · exact decodeFields_modelled names store hstore rest _

theorem decodeStruct_modelled {α : Type} (goType : String) (names : List String)
    (store : α → String → JSON → Except GoError α)
    (hstore : ∀ x n j, Modelled (store x n j)) (old : α) (j : JSON) :
    Modelled (decodeStruct goType names store old j) := by
  cases j with
  | null => exact modelled_ok _
  | obj kvs => exact decodeFields_modelled names store hstore kvs old
  | bool b => exact modelled_lib _
  | num l => exact modelled_lib _
  | str s => exact modelled_lib _
  | arr xs => exact modelled_lib _

theorem ApiResponse_store_modelled (r : ApiResponse) (n : String) (j : JSON) :
    Modelled (ApiResponse.store r n j) := by
  unfold ApiResponse.store
  split
  · exact map_modelled _ _ (decodeString_modelled _ _)
  · exact modelled_ok _

theorem ApiErrorResponse_store_modelled (r : ApiErrorResponse) (n : String) (j : JSON) :
    Modelled (ApiErrorResponse.store r n j) := by
  unfold ApiErrorResponse.store
  split
  · exact map_modelled _ _ (decodeString_modelled _ _)
  · exact modelled_ok _

/-- The decoder of a 200 reply answers on every body: a response or a Go error. -/
theorem decodeApiResponseBody_modelled (body : String) :
    Modelled (decodeApiResponseBody body) := by
  unfold decodeApiResponseBody
  split
  · rename_i e he
    exact modelled_error _ e he (readValue_modelled body)
  · exact decodeStruct_modelled _ _ _ ApiResponse_store_modelled _ _

/-- The decoder of another reply answers on every body: an error response or a Go
error. -/
theorem decodeApiErrorResponseBody_modelled (body : String) :
    Modelled (decodeApiErrorResponseBody body) := by
  unfold decodeApiErrorResponseBody
  split
  · rename_i e he
    exact modelled_error _ e he (readValue_modelled body)
  · exact decodeStruct_modelled _ _ _ ApiErrorResponse_store_modelled _ _



/-! ### What the encoder writes is integral -/

theorem membersIntegral_insertByKey (e : String × JSON) : ∀ l : List (String × JSON),
    e.2.integral → JSON.membersIntegral l → JSON.membersIntegral (insertByKey e l) := by
  intro l
  induction l with
  | nil =>
    intro he _
    obtain ⟨k, v⟩ := e
    exact ⟨he, trivial⟩
  | cons x rest ih =>
    intro he hl
    obtain ⟨k, v⟩ := e
    obtain ⟨k2, v2⟩ := x
    simp only [insertByKey]
    split
    · exact ⟨he, hl⟩
    · exact ⟨hl.1, ih he hl.2⟩

theorem membersIntegral_sortByKey : ∀ l : List (String × JSON),
    JSON.membersIntegral l → JSON.membersIntegral (sortByKey l) := by
  intro l
  induction l with
  | nil => intro h; exact h
  | cons x rest ih =>
    intro h
    obtain ⟨k, v⟩ := x
    exact membersIntegral_insertByKey (k, v) _ h.1 (ih h.2)

theorem marshalInt64_integral (i : Int) : (marshalInt64 i).integral := ⟨i, rfl⟩

mutual
theorem marshalValue_integral : ∀ (v : GoValue) (j : JSON), marshalValue v = .ok j → j.integral
  | .nil, j, h => by
    simp only [marshalValue, Except.ok.injEq] at h
    subst h; trivial
  | .bool b, j, h => by
    simp only [marshalValue, Except.ok.injEq] at h
    subst h; trivial
  | .string s, j, h => by
    simp only [marshalValue, Except.ok.injEq] at h
    subst h; trivial
  | .int64 i, j, h => by
    simp only [marshalValue, Except.ok.injEq] at h
    subst h; exact marshalInt64_integral i
  | .float64 v, j, h => by
    simp only [marshalValue] at h
    split at h
    · simp only [Except.ok.injEq] at h
      subst h
      exact ⟨v, rfl⟩
    · simp at h
  | .slice xs, j, h => by
    simp only [marshalValue] at h
    cases hx : marshalValues xs with
    | error e => rw [hx] at h; simp at h
    | ok js =>
      rw [hx] at h
      simp only [Except.ok.injEq] at h
      subst h
      exact marshalValues_integral xs js hx
  | .map kvs, j, h => by
    simp only [marshalValue] at h
    cases hx : marshalEntries kvs with
    | error e => rw [hx] at h; simp at h
    | ok ms =>
      rw [hx] at h
      simp only [Except.ok.injEq] at h
      subst h
      exact membersIntegral_sortByKey ms (marshalEntries_integral kvs ms hx)
  | .unsupported, j, h => by simp [marshalValue] at h
theorem marshalValues_integral : ∀ (xs : List GoValue) (js : List JSON),
    marshalValues xs = .ok js → JSON.allIntegral js
  | [], js, h => by
    simp only [marshalValues, Except.ok.injEq] at h
    subst h; trivial
  | x :: rest, js, h => by
    simp only [marshalValues] at h
    cases hx : marshalValue x with
    | error e => rw [hx] at h; simp at h
    | ok j =>
      rw [hx] at h
      cases hr : marshalValues rest with
      | error e => rw [hr] at h; simp at h
      | ok js2 =>
        rw [hr] at h
        simp only [Except.ok.injEq] at h
        subst h
        exact ⟨marshalValue_integral x j hx, marshalValues_integral rest js2 hr⟩
theorem marshalEntries_integral : ∀ (kvs : List (String × GoValue))
    (ms : List (String × JSON)), marshalEntries kvs = .ok ms → JSON.membersIntegral ms
  | [], ms, h => by
    simp only [marshalEntries, Except.ok.injEq] at h
    subst h; trivial
  | (k, v) :: rest, ms, h => by
    simp only [marshalEntries] at h
    cases hx : marshalValue v with
    | error e => rw [hx] at h; simp at h
    | ok j =>
      rw [hx] at h
      cases hr : marshalEntries rest with
      | error e => rw [hr] at h; simp at h
      | ok ms2 =>
        rw [hr] at h
        simp only [Except.ok.injEq] at h
        subst h
        exact ⟨marshalValue_integral v j hx, marshalEntries_integral rest ms2 hr⟩
end

theorem depthMembers_insertByKey (n : Nat) (e : String × JSON) : ∀ l : List (String × JSON),
    e.2.depth ≤ n → JSON.depthMembers l ≤ n → JSON.depthMembers (insertByKey e l) ≤ n := by
  intro l
  induction l with
  | nil =>
    intro he _
    obtain ⟨k, v⟩ := e
    simp only [insertByKey, JSON.depthMembers]
    simp only at he
    omega
  | cons x rest ih =>
    intro he hl
    obtain ⟨k, v⟩ := e
    obtain ⟨k2, v2⟩ := x
    simp only [insertByKey]
    simp only [JSON.depthMembers] at hl
    simp only at he
    split
    · simp only [JSON.depthMembers]
      omega
    · have := ih he (by omega)
      simp only [JSON.depthMembers]
      omega

theorem depthMembers_sortByKey (n : Nat) : ∀ l : List (String × JSON),
    JSON.depthMembers l ≤ n → JSON.depthMembers (sortByKey l) ≤ n := by
  intro l
  induction l with
  | nil => intro h; exact h
  | cons x rest ih =>
    intro h
    obtain ⟨k, v⟩ := x
    simp only [JSON.depthMembers] at h
    exact depthMembers_insertByKey n (k, v) _ (by simp only; omega) (ih (by omega))

mutual
theorem marshalValue_depth : ∀ (v : GoValue) (j : JSON), marshalValue v = .ok j →
    j.depth ≤ v.depth
  | .nil, j, h => by
    simp only [marshalValue, Except.ok.injEq] at h
    subst h; exact Nat.le_refl _
  | .bool b, j, h => by
    simp only [marshalValue, Except.ok.injEq] at h
    subst h; exact Nat.le_refl _
  | .string s, j, h => by
    simp only [marshalValue, Except.ok.injEq] at h
    subst h; exact Nat.le_refl _
  | .int64 i, j, h => by
    simp only [marshalValue, Except.ok.injEq] at h
    subst h; exact Nat.le_refl _
  | .float64 v, j, h => by
    simp only [marshalValue] at h
    split at h
    · simp only [Except.ok.injEq] at h
      subst h
      exact Nat.le_refl _
    · simp at h
  | .slice xs, j, h => by
    simp only [marshalValue] at h
    cases hx : marshalValues xs with
    | error e => rw [hx] at h; simp at h
    | ok js =>
      rw [hx] at h
      simp only [Except.ok.injEq] at h
      subst h
      have := marshalValues_depth xs js hx
      simp only [JSON.depth, GoValue.depth]
      omega
  | .map kvs, j, h => by
    simp only [marshalValue] at h
    cases hx : marshalEntries kvs with
    | error e => rw [hx] at h; simp at h
    | ok ms =>
      rw [hx] at h
      simp only [Except.ok.injEq] at h
      subst h
      have := depthMembers_sortByKey _ ms (marshalEntries_depth kvs ms hx)
      simp only [JSON.depth, GoValue.depth]
      omega
  | .unsupported, j, h => by simp [marshalValue] at h
theorem marshalValues_depth : ∀ (xs : List GoValue) (js : List JSON),
    marshalValues xs = .ok js → JSON.depthAll js ≤ GoValue.depthAll xs
  | [], js, h => by
    simp only [marshalValues, Except.ok.injEq] at h
    subst h; exact Nat.le_refl _
  | x :: rest, js, h => by
    simp only [marshalValues] at h
    cases hx : marshalValue x with
    | error e => rw [hx] at h; simp at h
    | ok j =>
      rw [hx] at h
      cases hr : marshalValues rest with
      | error e => rw [hr] at h; simp at h
      | ok js2 =>
        rw [hr] at h
        simp only [Except.ok.injEq] at h
        subst h
        have h1 := marshalValue_depth x j hx
        have h2 := marshalValues_depth rest js2 hr
        simp only [JSON.depthAll, GoValue.depthAll]
        omega
theorem marshalEntries_depth : ∀ (kvs : List (String × GoValue))
    (ms : List (String × JSON)), marshalEntries kvs = .ok ms →
    JSON.depthMembers ms ≤ GoValue.depthEntries kvs
  | [], ms, h => by
    simp only [marshalEntries, Except.ok.injEq] at h
    subst h; exact Nat.le_refl _
  | (k, v) :: rest, ms, h => by
    simp only [marshalEntries] at h
    cases hx : marshalValue v with
    | error e => rw [hx] at h; simp at h
    | ok j =>
      rw [hx] at h
      cases hr : marshalEntries rest with
      | error e => rw [hr] at h; simp at h
      | ok ms2 =>
        rw [hr] at h
        simp only [Except.ok.injEq] at h
        subst h
        have h1 := marshalValue_depth v j hx
        have h2 := marshalEntries_depth rest ms2 hr
        simp only [JSON.depthMembers, GoValue.depthEntries]
        omega
end

theorem sample_marshal : jsonMarshal { Emails := some [sampleEmail] } = .ok sampleBody := by rfl

/-- C2 on a sample: a 401 reply with body {"error":"invalid token"} gives the API error
carrying "invalid token". -/
theorem SendEmails_non_200_witness :
    (SendEmails (sampleEnv (.ok unauthorizedReply)) sampleClient (some liveContext)
      (some [sampleEmail])).result = .error (.msgf "API error: invalid token") :=
  ((SendEmails_non_200 (sampleEnv (.ok unauthorizedReply)) sampleClient (some liveContext)
      (some [sampleEmail]) (requestFor sampleClient liveContext sampleBody) unauthorizedReply
      (List.mem_cons_self _ _) (by decide)).2.1 "invalid token" (by rfl)).1

/-- C3 on a sample: a 200 reply with body {"status":"ok"} gives the ApiResponse of status
"ok". -/
theorem SendEmails_200_witness :
    (SendEmails (sampleEnv (.ok okReply)) sampleClient (some liveContext)
      (some [sampleEmail])).result = .ok { Status := "ok" } :=
  ((SendEmails_200 (sampleEnv (.ok okReply)) sampleClient (some liveContext)
      (some [sampleEmail]) (requestFor sampleClient liveContext sampleBody) okReply
      (List.mem_cons_self _ _) (by decide)).1 { Status := "ok" }).mpr (by rfl)

/-- C6 on a sample: under a cancelled context the transport fails, and SendEmails returns
"failed to send request" wrapping the context's error after that one call. -/
theorem SendEmails_transport_failure_witness :
    (SendEmails (sampleEnv (.ok okReply)) sampleClient (some cancelledContext)
      (some [sampleEmail])).result =
      .error (.wrapf "failed to send request: " (.lib "context canceled")) ∧
    (SendEmails (sampleEnv (.ok okReply)) sampleClient (some cancelledContext)
      (some [sampleEmail])).events =
      [.roundTrip (requestFor sampleClient cancelledContext sampleBody)
        (.error (.lib "context canceled"))] :=
  have h := SendEmails_transport_failure (sampleEnv (.ok okReply)) sampleClient
    (some cancelledContext) (some [sampleEmail])
    (requestFor sampleClient cancelledContext sampleBody) (.lib "context canceled")
    (List.mem_cons_self _ _)
  ⟨h.1, h.2.2.2.1⟩



theorem quote_from : quote "from" = ['"', 'f', 'r', 'o', 'm', '"'] := by decide

theorem quote_email : quote "email" = ['"', 'e', 'm', 'a', 'i', 'l', '"'] := by decide

/-- C8: an Email in which only from.email is set serializes to exactly
{"from":{"email":<from.email>}}, the address written as a JSON string: none of the
optional keys appears. -/
theorem marshalEmail_from_only (address : String) :
    marshalEmail { Email.zero with From := { Email := address, Name := "" } } =
      .ok (.obj [("from", .obj [("email", .str address)])]) ∧
    jsonMarshalEmail { Email.zero with From := { Email := address, Name := "" } } =
      .ok (String.mk ("\x7b\"from\":\x7b\"email\":".data ++ quote address ++ "\x7d\x7d".data)) := by
  have h : marshalEmail { Email.zero with From := { Email := address, Name := "" } } =
      .ok (.obj [("from", .obj [("email", .str address)])]) := by
    simp [marshalEmail, marshalValueMap, field, isEmptyList, Email.zero, marshalAddress,
      marshalString, String.isEmpty_iff]
  refine ⟨h, ?_⟩
  simp [jsonMarshalEmail, h, render, renderMembers, quote_from, quote_email]



/-! ### Round trip -/

mutual
theorem canon_canon : ∀ v : GoValue, v.canon.canon = v.canon
  | .nil => rfl
  | .bool _ => rfl
  | .string _ => rfl
  | .int64 _ => rfl
  | .float64 _ => rfl
  | .slice xs => by simp only [GoValue.canon, canonAll_canonAll xs]
  | .map kvs => by simp only [GoValue.canon, canonEntries_canonEntries kvs]
  | .unsupported => rfl
theorem canonAll_canonAll : ∀ xs : List GoValue,
    GoValue.canonAll (GoValue.canonAll xs) = GoValue.canonAll xs
  | [] => rfl
  | x :: rest => by simp only [GoValue.canonAll, canon_canon x, canonAll_canonAll rest]
theorem canonEntries_canonEntries : ∀ kvs : List (String × GoValue),
    GoValue.canonEntries (GoValue.canonEntries kvs) = GoValue.canonEntries kvs
  | [] => rfl
  | (k, v) :: rest => by
    simp only [GoValue.canonEntries, canon_canon v, canonEntries_canonEntries rest]
end

theorem if_not_string_isEmpty {α : Type} (s : String) (a b : α) :
    (if s.isEmpty = true then a else b) = if s = "" then a else b := by
  simp only [String.isEmpty_iff]

/-- C7, amended: in every serialized struct the members are exactly the fields tagged
without omitempty (emails, from, email, content_type), which are always written, and the
fields tagged omitempty whose value is not empty (the empty string, zero, false, a nil
pointer, a nil or empty slice or map), in the order of the struct. -/
theorem omitempty_keys :
    (∀ a : Address, (marshalAddress a).keys =
      ["email"] ++ (if a.Name = "" then [] else ["name"])) ∧
    (∀ a : Attachment, (marshalAttachment a).keys =
      (if a.FileName = "" then [] else ["file_name"])
      ++ (if a.Content = "" then [] else ["content"])
      ++ ["content_type"]
      ++ (if a.InlineID = "" then [] else ["inline_id"])) ∧
    (∀ t : TrackingSettings, (marshalTrackingSettings t).keys =
      (if t.Opens = false then [] else ["opens"])
      ++ (if t.Clicks = false then [] else ["clicks"])
      ++ (if t.Unsubscribes = false then [] else ["unsubscribes"])
      ++ (if t.UnsubscribeGroupID = none then [] else ["unsubscribe_group_id"])) ∧
    (∀ (e : Email) (j : JSON), marshalEmail e = .ok j → j.keys =
      ["from"]
      ++ (if isEmptyList e.To then [] else ["to"])
      ++ (if isEmptyList e.CC then [] else ["cc"])
      ++ (if isEmptyList e.BCC then [] else ["bcc"])
      ++ (if e.Subject = "" then [] else ["subject"])
      ++ (if e.TextContent = "" then [] else ["text_content"])
      ++ (if e.HTMLContent = "" then [] else ["html_content"])
      ++ (if e.TemplateID = "" then [] else ["template_id"])
      ++ (if isEmptyList e.TemplateData then [] else ["template_data"])
      ++ (if isEmptyList e.Attachments then [] else ["attachments"])
      ++ (if isEmptyList e.Headers then [] else ["headers"])
      ++ (if e.ReplyTo = none then [] else ["reply_to"])
      ++ (if e.SendTime = 0 then [] else ["send_time"])
      ++ (if isEmptyList e.WebhookData then [] else ["webhook_data"])
      ++ (if e.Tag = "" then [] else ["tag"])
      ++ (if e.Tracking = none then [] else ["tracking"])) ∧
    (∀ (r : EmailRequest) (j : JSON), marshalEmailRequest r = .ok j → j.keys = ["emails"]) := by
  refine ⟨?_, ?_, ?_, ?_, ?_⟩
  · intro a
    simp only [marshalAddress, JSON.keys, List.map_append, keys_field, Bool.true_and,
      Bool.false_and, Bool.false_eq_true, if_false, if_not_string_isEmpty]
  · intro a
    simp only [marshalAttachment, JSON.keys, List.map_append, keys_field, Bool.true_and,
      Bool.false_and, Bool.false_eq_true, if_false, if_not_string_isEmpty]
  · intro t
    simp only [marshalTrackingSettings, JSON.keys, List.map_append, keys_field, Bool.true_and,
      Bool.not_eq_true', Option.isNone_iff_eq_none]
  · intro e j h
    rw [marshalEmail_keys e j h]
    simp only [if_not_string_isEmpty, Option.isNone_iff_eq_none, beq_iff_eq]
  · intro r j h
    simp only [marshalEmailRequest] at h
    cases hr : r.Emails with
    | none =>
      rw [hr] at h
      simp only [Except.ok.injEq] at h
      subst h
      rfl
    | some es =>
      rw [hr] at h
      simp only at h
      cases hm : marshalEmails es with
      | error err => rw [hm] at h; simp at h
      | ok js =>
        rw [hm] at h
        simp only [Except.ok.injEq] at h
        subst h
        rfl

set_option maxRecDepth 100000 in
/-- C7 as stated fails: the key emails carries null for a nil list and an empty array
for an empty one, and the key tracking carries an empty object when every setting is
off. -/
theorem omitempty_counterexample :
    jsonMarshal { Emails := none } = .ok "\x7b\"emails\":null\x7d" ∧
    jsonMarshal { Emails := some [] } = .ok "\x7b\"emails\":[]\x7d" ∧
    jsonMarshal { Emails := some [trackingOffEmail] } =
      .ok "\x7b\"emails\":[\x7b\"from\":\x7b\"email\":\"sender@example.test\"\x7d,\"tracking\":\x7b\x7d\x7d]\x7d" ∧
    (∃ j, marshalEmailRequest { Emails := none } = .ok j ∧ j.hasBlankMember = true) ∧
    (∃ j, marshalEmailRequest { Emails := some [trackingOffEmail] } = .ok j ∧
      j.hasBlankMember = true) :=
  ⟨by rfl, by rfl, by rfl, ⟨_, rfl, by rfl⟩, ⟨_, rfl, by rfl⟩⟩

set_option maxRecDepth 100000 in
/-- The HMAC-SHA256 of the sample payload under the sample key is the known value. -/
theorem sampleSignature_eq : lowerHex (hmacSha256 sampleSecret samplePayload) = sampleSignature := by
  decide

set_option maxRecDepth 100000 in
/-- C1 on a sample: the verifier accepts the known HMAC-SHA256 of the sample payload and
rejects it with its first character changed, with its last character dropped, the empty
signature, and its upper-case form. -/
theorem VerifyWebhookSignature_spec_witness :
    VerifyWebhookSignature sampleSecret samplePayload sampleSignature = true ∧
    VerifyWebhookSignature sampleSecret samplePayload (sampleSignature.set 0 48) = false ∧
    VerifyWebhookSignature sampleSecret samplePayload (sampleSignature.take 63) = false ∧
    VerifyWebhookSignature sampleSecret samplePayload [] = false ∧
    VerifyWebhookSignature sampleSecret samplePayload (sampleSignature.map upperByte) = false := by
  have h := VerifyWebhookSignature_spec sampleSecret samplePayload
  rw [sampleSignature_eq] at h
  exact ⟨(h.1 sampleSignature).mpr rfl, h.2.2.1 0 48 (by decide) (by decide),
    h.2.2.2.1 _ (by decide), h.2.2.2.2.1, h.2.2.2.2.2 (by decide)⟩



end Laneful
